import Mathlib

/-!
Verification of the text-transformation pipeline of `cchistory`
(`src/lib/MarkdownExporter.ts`), shallowly embedded over `List Char`.

Each JavaScript regex substitution is embedded as an explicit left-to-right
scanner with the same match semantics (leftmost match, greedy/lazy as in the
source pattern, continuation after the replaced region).  All definitions are
fuel-based structural recursions so that they evaluate inside the kernel.
-/

namespace CCHistory

/-- Character strings, as in the JS source, modelled as lists of characters. -/
abbrev Str := List Char

/-- JS `\s` (the whitespace class used by `trim`, `\s*`, etc.), restricted to
the ASCII whitespace characters that can occur in the data handled here. -/
def isJsWs (c : Char) : Bool :=
  c = ' ' || c = '\t' || c = '\n' || c = '\r' || c = '\x0b' || c = '\x0c'

/-- JS `\w` (ASCII word characters). -/
def isWordChar (c : Char) : Bool :=
  ('a' ≤ c && c ≤ 'z') || ('A' ≤ c && c ≤ 'Z') || ('0' ≤ c && c ≤ '9') || c = '_'

/-- JS `[a-z]` with the `i` flag: ASCII letters. -/
def isAsciiLetter (c : Char) : Bool :=
  ('a' ≤ c && c ≤ 'z') || ('A' ≤ c && c ≤ 'Z')

/-- JS `\d`. -/
def isDigitCh (c : Char) : Bool :=
  '0' ≤ c && c ≤ '9'

/-- `String.prototype.trim()`: drop leading and trailing whitespace. -/
def trimJs (s : Str) : Str :=
  ((s.dropWhile isJsWs).reverse.dropWhile isJsWs).reverse

/-- `String.prototype.endsWith`. -/
def endsWithL (s pat : Str) : Bool :=
  pat.isSuffixOf s

/-- Whether `pat` occurs as a contiguous substring of `s` (Bool form). -/
def containsSubB (pat : Str) : Str → Bool
  | [] => pat.isEmpty
  | c :: cs => pat.isPrefixOf (c :: cs) || containsSubB pat cs

/-- `String.prototype.split('\n')` (never returns an empty list). -/
def splitNl : Str → List Str
  | [] => [[]]
  | '\n' :: rest => [] :: splitNl rest
  | c :: rest =>
    match splitNl rest with
    | [] => [[c]]
    | h :: t => (c :: h) :: t

/-- `Array.prototype.join('\n')`. -/
def joinNl : List Str → Str
  | [] => []
  | [x] => x
  | x :: xs => x ++ '\n' :: joinNl xs

/-- Suffix of `s` after the first occurrence of character `ch`, if any. -/
def dropThroughChar? (ch : Char) : Str → Option Str
  | [] => none
  | c :: cs => if c = ch then some cs else dropThroughChar? ch cs

/-- Split `s` at the first occurrence of character `ch`:
`(before, after)` with the occurrence itself dropped. -/
def splitAtChar? (ch : Char) : Str → Option (Str × Str)
  | [] => none
  | c :: cs =>
    if c = ch then some ([], cs)
    else match splitAtChar? ch cs with
      | some (b, a) => some (c :: b, a)
      | none => none

/-- Suffix of `s` after the first (leftmost) occurrence of `pat`, if any
(the lazy-quantifier search `[\s\S]*?pat`). -/
def dropThroughSeq? (pat : Str) : Str → Option Str
  | [] => none
  | c :: cs =>
    if pat.isPrefixOf (c :: cs) then some ((c :: cs).drop pat.length)
    else dropThroughSeq? pat cs

/-- Split `s` at the first occurrence of `pat`: `(before, after)`. -/
def splitAtSeq? (pat : Str) : Str → Option (Str × Str)
  | [] => none
  | c :: cs =>
    if pat.isPrefixOf (c :: cs) then some ([], (c :: cs).drop pat.length)
    else match splitAtSeq? pat cs with
      | some (b, a) => some (c :: b, a)
      | none => none

/--
Generic left-to-right global regex replacement: at each position, `step`
either recognises a match starting there — returning the replacement text and
the remainder after the match — or fails, in which case the character is kept
and scanning moves one position right.  Matched/replaced text is not rescanned
(`String.prototype.replace` with the `g` flag).  Fuelled for kernel reduction.
-/
def scanRepl (step : Str → Option (Str × Str)) : Nat → Str → Str
  | 0, s => s
  | _ + 1, [] => []
  | fuel + 1, c :: cs =>
    match step (c :: cs) with
    | some (r, rest) => r ++ scanRepl step fuel rest
    | none => c :: scanRepl step fuel cs

/-- Run a replacement scanner with enough fuel for its input. -/
def runScan (step : Str → Option (Str × Str)) (s : Str) : Str :=
  scanRepl step (s.length + 1) s

/-! ### Metadata scrubber (`cleanMetadata`, MarkdownExporter.ts:99-116) -/

def uhOpen : Str := "<user-prompt-submit-hook".data
def uhClose : Str := "</user-prompt-submit-hook>".data
def srOpen : Str := "<system-reminder".data
def srClose : Str := "</system-reminder>".data

/--
One match of `<LIT[^>]*>[\s\S]*?</LIT>` anchored at the start of `s`: the
open literal, then everything up to the first `>`, then (lazily) everything up
to the first close literal.  The whole match is deleted.
-/
def pairStep (openLit closeLit : Str) (s : Str) : Option (Str × Str) :=
  if openLit.isPrefixOf s then
    match dropThroughChar? '>' (s.drop openLit.length) with
    | some r1 =>
      match dropThroughSeq? closeLit r1 with
      | some r2 => some ([], r2)
      | none => none
    | none => none
  else none

/--
One match of the standalone-tag pattern `<user-prompt-submit-hook[^>]*\/>`
anchored at the start of `s`: the open literal, then a `>`-free run that ends
with `/`, then `>`.  The whole match is deleted.
-/
def selfStep (s : Str) : Option (Str × Str) :=
  if uhOpen.isPrefixOf s then
    match splitAtChar? '>' (s.drop uhOpen.length) with
    | some (before, after) =>
      if before.getLast? = some '/' then some ([], after) else none
    | none => none
  else none

/-- `text.replace(/<user-prompt-submit-hook[^>]*>[\s\S]*?<\/user-prompt-submit-hook>/g, '')`. -/
def stripUserPromptHook (s : Str) : Str := runScan (pairStep uhOpen uhClose) s

/-- `text.replace(/<system-reminder[^>]*>[\s\S]*?<\/system-reminder>/g, '')`. -/
def stripSystemReminder (s : Str) : Str := runScan (pairStep srOpen srClose) s

/-- `text.replace(/<user-prompt-submit-hook[^>]*\/>/g, '')`. -/
def stripStandaloneHook (s : Str) : Str := runScan selfStep s

/--
One match of `<LIT>([^<]+)</LIT>` (or `[^<]*` when `allowEmpty`) anchored at
the start of `s`, replaced by `repl body`.
-/
def captureStep (openLit closeLit : Str) (allowEmpty : Bool) (repl : Str → Str)
    (s : Str) : Option (Str × Str) :=
  if openLit.isPrefixOf s then
    let t := s.drop openLit.length
    let body := t.takeWhile (fun c => c ≠ '<')
    let r1 := t.dropWhile (fun c => c ≠ '<')
    if (allowEmpty || !body.isEmpty) && closeLit.isPrefixOf r1 then
      some (repl body, r1.drop closeLit.length)
    else none
  else none

/-- Replacement for `<command-name>` tags (MarkdownExporter.ts:120-122). -/
def commandNameRepl (cmd : Str) : Str :=
  "> 💡 **Command**: `".data ++ cmd ++ "`".data

/-- Replacement for `<command-message>` tags (MarkdownExporter.ts:125-127). -/
def commandMessageRepl (msg : Str) : Str :=
  "> ℹ️ **Status**: ".data ++ msg

/-- Replacement for `<command-args>` tags (MarkdownExporter.ts:130-135):
blank argument text is dropped entirely. -/
def commandArgsRepl (args : Str) : Str :=
  if !(trimJs args).isEmpty then "> 📝 **Arguments**: `".data ++ args ++ "`".data
  else []

/--
`text.replace(/(^|\n)(> [^\n]+)\s*\n+\s*(?=> )/gm, '$1$2\n')`
(MarkdownExporter.ts:139): between a `> `-prefixed line and a directly
following `> ` (after whitespace containing at least one newline), collapse
the gap to a single newline.  `atLineStart` tracks whether a match may begin
at the current position (` ^ ` in the original string only matches right
after a newline, which fails immediately after a replacement that consumed
trailing spaces).
-/
def squeezeQuoteGaps : Nat → Bool → Str → Str
  | 0, _, s => s
  | _ + 1, _, [] => []
  | fuel + 1, atLineStart, s =>
    let line := s.takeWhile (fun c => c ≠ '\n')
    let rest := s.dropWhile (fun c => c ≠ '\n')
    let ws := rest.takeWhile isJsWs
    let tail := rest.dropWhile isJsWs
    if atLineStart && "> ".data.isPrefixOf line && decide (2 < line.length)
        && ws.contains '\n' && "> ".data.isPrefixOf tail then
      line ++ '\n' :: squeezeQuoteGaps fuel (ws.getLast? = some '\n') tail
    else
      match rest with
      | [] => line
      | _ :: rest2 => line ++ '\n' :: squeezeQuoteGaps fuel true rest2

/--
`text.replace(/(^|\n)(> [^\n]+)$/gm, '$1$2  ')` (MarkdownExporter.ts:142):
append two spaces to every `> `-prefixed line with non-empty content.
-/
def appendQuoteBreaks (s : Str) : Str :=
  joinNl ((splitNl s).map fun l =>
    if "> ".data.isPrefixOf l && decide (2 < l.length) then l ++ "  ".data else l)

/-- Replacement body shared by the stderr/stdout block rewrites
(MarkdownExporter.ts:145-187): `label` is the callout prefix. -/
def commandBlockRepl (label : Str) (body : Str) : Str :=
  let trimmed := trimJs body
  if trimmed.isEmpty then
    '\n' :: label ++ ": (empty)\n".data
  else
    let lines := splitNl trimmed
    if decide (10 < lines.length) then
      let preview := joinNl ((lines.take 5).map (fun l => "> ".data ++ l))
      '\n' :: label ++ ": ```\n".data ++ preview ++ "\n> ...\n> (".data
        ++ Nat.toDigits 10 (lines.length - 5) ++ " more lines)```\n".data
    else
      let formatted := joinNl (lines.enum.map fun li =>
        if li.1 = lines.length - 1 then "> ".data ++ li.2 ++ "```".data
        else "> ".data ++ li.2)
      '\n' :: label ++ ": ```\n".data ++ formatted ++ "\n".data

/-- One match of `<local-command-stderr>([\s\S]*?)</local-command-stderr>`. -/
def stderrStep (s : Str) : Option (Str × Str) :=
  if "<local-command-stderr>".data.isPrefixOf s then
    match splitAtSeq? "</local-command-stderr>".data (s.drop 22) with
    | some (body, rest) => some (commandBlockRepl "> ⚠️ **Error Output**".data body, rest)
    | none => none
  else none

/-- One match of `<local-command-stdout>([\s\S]*?)</local-command-stdout>`. -/
def stdoutStep (s : Str) : Option (Str × Str) :=
  if "<local-command-stdout>".data.isPrefixOf s then
    match splitAtSeq? "</local-command-stdout>".data (s.drop 22) with
    | some (body, rest) => some (commandBlockRepl "> 📤 **Output**".data body, rest)
    | none => none
  else none

/-- `squeezeQuoteGaps` run with enough fuel for its input. -/
def squeezeQuoteGapsRun (s : Str) : Str :=
  squeezeQuoteGaps (s.length + 1) true s

/-- `formatCommandTags` (MarkdownExporter.ts:118-190). -/
def formatCommandTags (s : Str) : Str :=
  runScan stdoutStep (runScan stderrStep (appendQuoteBreaks (squeezeQuoteGapsRun
    (runScan (captureStep "<command-args>".data "</command-args>".data true commandArgsRepl)
      (runScan (captureStep "<command-message>".data "</command-message>".data false commandMessageRepl)
        (runScan (captureStep "<command-name>".data "</command-name>".data false commandNameRepl)
          s))))))

/-- One match of `\n{3,}` (a maximal run of at least three newlines) anchored
at the start of `s`, replaced by two newlines. -/
def collapseStep (s : Str) : Option (Str × Str) :=
  if "\n\n\n".data.isPrefixOf s then some (['\n', '\n'], s.dropWhile (fun c => c = '\n'))
  else none

/-- `text.replace(/\n{3,}/g, '\n\n')` (MarkdownExporter.ts:113). -/
def collapseNewlines (s : Str) : Str := runScan collapseStep s

/-- `cleanMetadata` (MarkdownExporter.ts:99-116). -/
def cleanMetadataL (text : Str) : Str :=
  trimJs (collapseNewlines (formatCommandTags
    (stripStandaloneHook (stripSystemReminder (stripUserPromptHook text)))))

/-! ### Content-block formatting helpers (MarkdownExporter.ts:192-495) -/

/-- `removeCatLineNumbers` (MarkdownExporter.ts:435-446): per line, drop a
`^\s*\d+[→\t]` prefix, keeping only the capture after the arrow/tab. -/
def removeCatLineNumbers (text : Str) : Str :=
  joinNl ((splitNl text).map fun line =>
    let r1 := line.dropWhile isJsWs
    let digits := r1.takeWhile isDigitCh
    let r2 := r1.dropWhile isDigitCh
    match r2 with
    | c :: rest => if !digits.isEmpty && (c = '→' || c = '\t') then rest else line
    | [] => line)

/-- Whether a line matches `^([MADRCU?!]+|\s[MADRCU?!]+)\s+\S`
(MarkdownExporter.ts:197): a git-status flag run, optionally after one
whitespace character, then whitespace, then a non-blank rest. -/
def isGitStatusCore (l : Str) : Bool :=
  let flags := l.takeWhile (fun c => c ∈ ['M', 'A', 'D', 'R', 'C', 'U', '?', '!'])
  let r1 := l.dropWhile (fun c => c ∈ ['M', 'A', 'D', 'R', 'C', 'U', '?', '!'])
  !flags.isEmpty && !(r1.takeWhile isJsWs).isEmpty && !(r1.dropWhile isJsWs).isEmpty

def isGitStatusLine (l : Str) : Bool :=
  isGitStatusCore l ||
    (match l with
     | c :: rest => isJsWs c && isGitStatusCore rest
     | [] => false)

/-- Whether a line matches `^(\?\?|\s\?\?)\s+\S` (MarkdownExporter.ts:198). -/
def isUntrackedCore (l : Str) : Bool :=
  match l with
  | '?' :: '?' :: r1 => !(r1.takeWhile isJsWs).isEmpty && !(r1.dropWhile isJsWs).isEmpty
  | _ => false

def isUntrackedLine (l : Str) : Bool :=
  isUntrackedCore l ||
    (match l with
     | c :: rest => isJsWs c && isUntrackedCore rest
     | [] => false)

/-- Whether a `.` with at least one character after it occurs in the string. -/
def hasDotWithSuccessor : Str → Bool
  | '.' :: _ :: _ => true
  | _ :: rest => hasDotWithSuccessor rest
  | [] => false

/-- Whether a token (a maximal non-whitespace run) contains a `.` that has at
least one character on each side, i.e. can be split as `\S+\.\S+`. -/
def hasInnerDot : Str → Bool
  | [] => false
  | _ :: rest => hasDotWithSuccessor rest

/-- Whether a line matches `^\s*\S+\.\S+\s+\|\s+\d+` (MarkdownExporter.ts:222):
a git diff-stat file line. -/
def isDiffStatFileLine (l : Str) : Bool :=
  let r0 := l.dropWhile isJsWs
  let tok := r0.takeWhile (fun c => !isJsWs c)
  let r1 := r0.dropWhile (fun c => !isJsWs c)
  let ws := r1.takeWhile isJsWs
  let r2 := r1.dropWhile isJsWs
  hasInnerDot tok && !ws.isEmpty &&
    (match r2 with
     | '|' :: r3 =>
       let ws2 := r3.takeWhile isJsWs
       let r4 := r3.dropWhile isJsWs
       !ws2.isEmpty && (match r4 with | d :: _ => isDigitCh d | [] => false)
     | _ => false)

/-- Whether a line matches `^\s*\d+\s+files?\s+changed` (MarkdownExporter.ts:223). -/
def isDiffStatSummaryLine (l : Str) : Bool :=
  let r0 := l.dropWhile isJsWs
  let digits := r0.takeWhile isDigitCh
  let r1 := r0.dropWhile isDigitCh
  let ws := r1.takeWhile isJsWs
  let r2 := r1.dropWhile isJsWs
  !digits.isEmpty && !ws.isEmpty && "file".data.isPrefixOf r2 &&
    (let t := r2.drop 4
     let afterS := if t.head? = some 's' then t.drop 1 else t
     (!(afterS.takeWhile isJsWs).isEmpty && "changed".data.isPrefixOf (afterS.dropWhile isJsWs)) ||
       (!(t.takeWhile isJsWs).isEmpty && "changed".data.isPrefixOf (t.dropWhile isJsWs)))

/-- Pad non-blank unindented lines with one leading space
(MarkdownExporter.ts:209-215 and 232-238). -/
def padUnindented (lines : List Str) : List Str :=
  lines.map fun line =>
    if !(trimJs line).isEmpty && line.head? ≠ some ' ' then ' ' :: line else line

/-- Whether the line list has both indented and unindented non-blank lines
(MarkdownExporter.ts:205-206). -/
def hasMixedIndent (lines : List Str) : Bool :=
  (lines.any fun l => l.head? = some ' ' && !(trimJs l).isEmpty) &&
    (lines.any fun l => l.head? ≠ some ' ' && !(trimJs l).isEmpty)

/-- Minimum leading-whitespace length over non-blank lines; `none` plays the
role of `Infinity` (MarkdownExporter.ts:244-250). -/
def minIndentOf (lines : List Str) : Option Nat :=
  lines.foldl
    (fun acc l =>
      if (trimJs l).isEmpty then acc
      else
        let n := (l.takeWhile isJsWs).length
        match acc with
        | none => some n
        | some m => some (min m n))
    none

/-- `normalizeCodeBlockIndentation` (MarkdownExporter.ts:192-263). -/
def normalizeCBI (content : Str) : Str :=
  let lines := splitNl content
  if lines.any (fun l => isGitStatusLine l || isUntrackedLine l) then
    if hasMixedIndent lines then joinNl (padUnindented lines) else content
  else if !(lines.filter (fun l => isDiffStatFileLine l || isDiffStatSummaryLine l)).isEmpty then
    if hasMixedIndent lines then joinNl (padUnindented lines) else content
  else
    match minIndentOf lines with
    | some m =>
      if 0 < m then
        joinNl (lines.map fun l => if (trimJs l).isEmpty then l else l.drop m)
      else content
    | none => content

/-- One match of ```` ```(\w*)\n\s*\n``` ```` (MarkdownExporter.ts:267) or of
```` ```(\w*)\n(\s+)\n``` ```` (MarkdownExporter.ts:273, `minWs = 2`) anchored
at the start of `s`: an all-whitespace fence body ending in a newline,
rewritten to an explicit `(empty code block)` body. -/
def emptyFenceStep (minWs : Nat) (s : Str) : Option (Str × Str) :=
  if "```".data.isPrefixOf s then
    let t := s.drop 3
    let lang := t.takeWhile isWordChar
    match t.dropWhile isWordChar with
    | '\n' :: r2 =>
      let ws := r2.takeWhile isJsWs
      let r3 := r2.dropWhile isJsWs
      if minWs ≤ ws.length && ws.getLast? = some '\n' && "```".data.isPrefixOf r3 then
        some ("```".data ++ lang ++ "\n(empty code block)\n```".data, r3.drop 3)
      else none
    | _ => none
  else none

/-- One match of ```` ```(\w*)\n([\s\S]*?)``` ```` (MarkdownExporter.ts:282)
anchored at the start of `s`: re-emit the fence with its body normalized when
the body is non-blank. -/
def normalizeFenceStep (s : Str) : Option (Str × Str) :=
  if "```".data.isPrefixOf s then
    let t := s.drop 3
    let lang := t.takeWhile isWordChar
    match t.dropWhile isWordChar with
    | '\n' :: r2 =>
      match splitAtSeq? "```".data r2 with
      | some (body, rest) =>
        if !(trimJs body).isEmpty then
          some ("```".data ++ lang ++ '\n' :: normalizeCBI body ++ "```".data, rest)
        else
          some ("```".data ++ lang ++ '\n' :: body ++ "```".data, rest)
      | none => none
    | _ => none
  else none

/-- `formatEmptyCodeBlocks` (MarkdownExporter.ts:265-292). -/
def formatEmptyCodeBlocks (text : Str) : Str :=
  runScan normalizeFenceStep (runScan (emptyFenceStep 2) (runScan (emptyFenceStep 1) text))

/-- `adjustHeadingLevels` (MarkdownExporter.ts:448-455):
`text.replace(/^(#{1,3})\s/gm, ...)` deepens 1-3 leading heading markers by
three.  The consumed `\s` may itself be the line's newline, in which case the
next scan position is again a line start. -/
def adjustHeadingLevels : Nat → Str → Str
  | 0, s => s
  | _ + 1, [] => []
  | fuel + 1, s =>
    let hashes := s.takeWhile (fun c => c = '#')
    let k := hashes.length
    if 1 ≤ k && k ≤ 3 && (s.drop k).head?.any isJsWs then
      match s.drop k with
      | c :: rest =>
        if c = '\n' then
          List.replicate (k + 3) '#' ++ ' ' :: adjustHeadingLevels fuel rest
        else
          let lineRest := rest.takeWhile (fun x => x ≠ '\n')
          List.replicate (k + 3) '#' ++ ' ' :: lineRest ++
            (match rest.dropWhile (fun x => x ≠ '\n') with
             | [] => []
             | _ :: rest2 => '\n' :: adjustHeadingLevels fuel rest2)
      | [] => s
    else
      let line := s.takeWhile (fun c => c ≠ '\n')
      match s.dropWhile (fun c => c ≠ '\n') with
      | [] => line
      | _ :: rest => line ++ '\n' :: adjustHeadingLevels fuel rest

/-- The fixed sentinel of a continued-session summary (MarkdownExporter.ts:483). -/
def continuedSentinel : Str :=
  "This session is being continued from a previous conversation".data

/-- `formatContinuationSummary` (MarkdownExporter.ts:481-495). -/
def formatContinuationSummaryL (text : Str) : Str :=
  if continuedSentinel.isPrefixOf text then
    let lines := splitNl text
    let firstLine := lines.headD []
    let remaining := trimJs (joinNl (lines.drop 1))
    "<details>\n<summary>📋 <strong>".data ++ firstLine ++
      "</strong></summary>\n\n".data ++ remaining ++ "\n</details>".data
  else text

/-! ### Tool-result truncation and fence repair (MarkdownExporter.ts:363-421) -/

/-- The truncation marker appended by the exporter. -/
def truncMarker : Str := "... (truncated)".data

/-- MarkdownExporter.ts:364-365: text counting as already truncated. -/
def isAlreadyTruncated (s : Str) : Bool :=
  endsWithL s "... (truncated)".data || endsWithL s "(truncated)".data

/-- Index of the last `'\n'` in `s`, if any. -/
def lastIdxOfNl : Str → Option Nat
  | [] => none
  | c :: cs =>
    match lastIdxOfNl cs with
    | some i => some (i + 1)
    | none => if c = '\n' then some 0 else none

/-- `String.prototype.lastIndexOf('\n', cut)`: last newline index ≤ `cut`
(`none` standing for the JS result `-1`). -/
def lastNlLe (s : Str) (cut : Nat) : Option Nat :=
  lastIdxOfNl (s.take (cut + 1))

/--
The truncation step (MarkdownExporter.ts:367-375): when the text is longer
than the configured maximum and not already truncated, cut it at
`lastIndexOf('\n', max)` if that is `> max - 100`, else at `max`, and append
the marker.  The JS `substring(0, breakPoint)` clamps a negative break point
(`lastIndexOf` returning `-1`) to `0`, which is what `Int.toNat` does.
-/
def truncateStep (maxResultLength : Nat) (s : Str) : Str :=
  if isAlreadyTruncated s || decide (s.length ≤ maxResultLength) then s
  else
    let lastNewline : Int := match lastNlLe s maxResultLength with | some i => i | none => -1
    let breakPoint : Int :=
      if (maxResultLength : Int) - 100 < lastNewline then lastNewline else maxResultLength
    s.take breakPoint.toNat ++ '\n' :: truncMarker

/-- Number of non-overlapping occurrences of ```` ``` ```` scanning left to
right (`matchAll(/```/g).length`, MarkdownExporter.ts:379-380). -/
def countTicks : Str → Nat
  | '`' :: '`' :: '`' :: rest => countTicks rest + 1
  | _ :: rest => countTicks rest
  | [] => 0

/-- `String.prototype.lastIndexOf('```')`: start index of the last
occurrence. -/
def lastTicksIdx : Str → Option Nat
  | [] => none
  | c :: cs =>
    match lastTicksIdx cs with
    | some i => some (i + 1)
    | none => if "```".data.isPrefixOf (c :: cs) then some 0 else none

/-- MarkdownExporter.ts:387-388: after the last ```` ``` ````, the (trimmed)
remainder is empty, or its first line is a pure ASCII-letter language tag. -/
def lastFenceLooksOpen (s : Str) : Bool :=
  match lastTicksIdx s with
  | some i =>
    let afterBacktick := trimJs (s.drop (i + 3))
    let firstLine := afterBacktick.takeWhile (fun c => c ≠ '\n')
    afterBacktick.isEmpty || (!firstLine.isEmpty && firstLine.all isAsciiLetter)
  | none => false

/-- `/\w+\.\w*$/` (MarkdownExporter.ts:412): a word run, a dot, then an
optional word run reaching the end of the string. -/
def endsWithMethodDot (t : Str) : Bool :=
  match t.reverse.dropWhile isWordChar with
  | '.' :: c :: _ => isWordChar c
  | _ => false

/-- The incomplete-line heuristic (MarkdownExporter.ts:396-417) applied to the
last line of the content. -/
def isIncompleteLastLine (lastLine : Str) : Bool :=
  let t := trimJs lastLine
  let isIncomplete :=
    endsWithL t ",".data || endsWithL t "(".data || endsWithL t "[".data ||
    endsWithL t "\x7b".data || endsWithL t "=".data || endsWithL t "+".data ||
    endsWithL t "->".data || endsWithL t "|".data || endsWithL t "&&".data ||
    endsWithL t "||".data || endsWithL t ":".data || endsWithMethodDot t
  isIncomplete ||
    (!lastLine.isEmpty && !(t.getLast?.any (fun c => c ∈ ['.', ';', '\x7d', ']', ')'])))

/-- The structural-repair step (MarkdownExporter.ts:377-421): close an odd
(unterminated) fence when its tail looks like an opening fence, else apply the
incomplete-cutoff heuristic when the text does not already end truncated. -/
def repairStep (finalContent : Str) : Str :=
  if countTicks finalContent % 2 = 1 then
    if lastFenceLooksOpen finalContent then
      finalContent ++ "\n```\n".data ++ truncMarker
    else finalContent
  else if !(endsWithL finalContent "... (truncated)".data ||
      endsWithL finalContent "(truncated)".data) then
    if isIncompleteLastLine ((splitNl finalContent).getLastD []) then
      finalContent ++ '\n' :: truncMarker
    else finalContent
  else finalContent

/-! ### JSON values and `JSON.stringify(v, null, 2)` -/

inductive Json where
  | null
  | bool (b : Bool)
  | num (n : Int)
  | str (s : Str)
  | arr (elems : List Json)
  | obj (fields : List (Str × Json))

/-- JSON string escaping (the characters relevant to this data). -/
def escapeJsonChar (c : Char) : Str :=
  if c = '"' then ['\\', '"']
  else if c = '\\' then ['\\', '\\']
  else if c = '\n' then ['\\', 'n']
  else if c = '\t' then ['\\', 't']
  else if c = '\r' then ['\\', 'r']
  else [c]

def escapeJson (s : Str) : Str := (s.map escapeJsonChar).flatten

def intStr (i : Int) : Str :=
  if i < 0 then '-' :: Nat.toDigits 10 i.natAbs else Nat.toDigits 10 i.toNat

mutual

/-- `JSON.stringify(v, null, 2)` at a given indentation level. -/
def stringifyAt (indent : Nat) : Json → Str
  | .null => "null".data
  | .bool true => "true".data
  | .bool false => "false".data
  | .num i => intStr i
  | .str s => '"' :: escapeJson s ++ ['"']
  | .arr [] => "[]".data
  | .arr (e :: es) =>
    "[\n".data ++ stringifyItems (indent + 2) (e :: es) ++
      '\n' :: List.replicate indent ' ' ++ "]".data
  | .obj [] => "\x7b\x7d".data
  | .obj (f :: fs) =>
    "\x7b\n".data ++ stringifyFields (indent + 2) (f :: fs) ++
      '\n' :: List.replicate indent ' ' ++ "\x7d".data

def stringifyItems (indent : Nat) : List Json → Str
  | [] => []
  | [e] => List.replicate indent ' ' ++ stringifyAt indent e
  | e :: e2 :: es =>
    List.replicate indent ' ' ++ stringifyAt indent e ++ ",\n".data ++
      stringifyItems indent (e2 :: es)

def stringifyFields (indent : Nat) : List (Str × Json) → Str
  | [] => []
  | [f] => List.replicate indent ' ' ++ '"' :: escapeJson f.1 ++ "\": ".data ++ stringifyAt indent f.2
  | f :: f2 :: fs =>
    List.replicate indent ' ' ++ '"' :: escapeJson f.1 ++ "\": ".data ++ stringifyAt indent f.2 ++
      ",\n".data ++ stringifyFields indent (f2 :: fs)

end

def stringifyJson (v : Json) : Str := stringifyAt 0 v

/-- JS truthiness of an optional JSON value (`!item.input`). -/
def jsFalsy : Option Json → Bool
  | none => true
  | some .null => true
  | some (.bool b) => !b
  | some (.num n) => n = 0
  | some (.str s) => s.isEmpty
  | some (.arr _) => false
  | some (.obj _) => false

/-- `Object.keys(v).length` for a (truthy) JSON value. -/
def keysLen : Json → Nat
  | .obj fs => fs.length
  | .arr es => es.length
  | .str s => s.length
  | _ => 0

/-! ### Record model (src/types.ts shapes, as used by MarkdownExporter.ts) -/

/-- A tool result's `content`: a raw string or a structured JSON value. -/
inductive ToolResultContent where
  | str (s : Str)
  | json (v : Json)

/-- One content part, distinguished by its `type` tag exactly as in the
loosely-typed source; unrecognized tags are arbitrary other strings. -/
structure ContentPart where
  type : Str
  text : Option Str := none
  name : Option Str := none
  input : Option Json := none
  content : Option ToolResultContent := none

/-- A turn's content value: a raw string or an ordered list of parts (a single
bare part object is also accepted by `formatContent`). -/
inductive ContentValue where
  | str (s : Str)
  | parts (l : List ContentPart)
  | part (p : ContentPart)

/-- The nested `message` field of a record. -/
structure MessageBody where
  content : Option ContentValue := none

/-- One conversation record (`Message` in src/types.ts). -/
structure Message where
  type : Str
  timestamp : Option Str := none
  sessionId : Option Str := none
  cwd : Option Str := none
  version : Option Str := none
  thinking : Option Str := none
  content : Option ContentValue := none
  message : Option MessageBody := none

/-- JS truthiness of an optional string field. -/
def optTruthy (o : Option Str) : Bool :=
  match o with
  | some s => !s.isEmpty
  | none => false

/-- JS truthiness of an optional content value (`""` is falsy, any array or
object is truthy). -/
def contentTruthy : Option ContentValue → Bool
  | some (.str s) => !s.isEmpty
  | some (.parts _) => true
  | some (.part _) => true
  | none => false

/-! ### Content-block formatter (MarkdownExporter.ts:294-479) -/

/-- The string-content pipeline shared by text parts and raw string content
(MarkdownExporter.ts:296-301 and 458-463). -/
def textPipeline (s : Str) : Str :=
  adjustHeadingLevels ((formatEmptyCodeBlocks (formatContinuationSummaryL (cleanMetadataL s))).length + 1)
    (formatEmptyCodeBlocks (formatContinuationSummaryL (cleanMetadataL s)))

/-- `item.name || 'Unknown Tool'` (MarkdownExporter.ts:305). -/
def toolNameOf (item : ContentPart) : Str :=
  if optTruthy item.name then item.name.getD [] else "Unknown Tool".data

/-- The `(empty)` tool-use rendering (MarkdownExporter.ts:316-322). -/
def emptyToolUseBlock (toolName : Str) : Str :=
  joinNl [[], "🔧 **Tool Use**: ".data ++ toolName, "```json".data, "(empty)".data, "```".data]

/--
`formatContentPart` (MarkdownExporter.ts:294-433).  The result is `none`
exactly when the JS code throws: a `tool_result` part with an absent
`content` field makes `JSON.stringify(undefined, null, 2)` return `undefined`,
on which the subsequent `result.trim()` raises a `TypeError`.
-/
def formatContentPart? (maxResultLength : Nat) (item : ContentPart) : Option Str :=
  if item.type = "text".data && optTruthy item.text then
    some (textPipeline (item.text.getD []))
  else if item.type = "tool_use".data then
    let toolName := toolNameOf item
    let jsonContent :=
      stringifyJson (if jsFalsy item.input then Json.obj [] else item.input.getD (Json.obj []))
    if jsFalsy item.input || decide (keysLen (item.input.getD Json.null) = 0) then
      some (emptyToolUseBlock toolName)
    else
      let jsonContent2 :=
        if !(endsWithL jsonContent "\x7d".data || endsWithL jsonContent "]".data) then
          jsonContent ++ '\n' :: truncMarker
        else jsonContent
      some (joinNl [[], "🔧 **Tool Use**: ".data ++ toolName, "```json".data, jsonContent2, "```".data])
  else if item.type = "tool_result".data then
    match item.content with
    | none => none
    | some rc =>
      let result :=
        match rc with
        | .str s => removeCatLineNumbers (cleanMetadataL s)
        | .json v => stringifyJson v
      if (trimJs result).isEmpty then
        some "\n📤 **Tool Result**: (empty result)\n".data
      else
        let normalized := normalizeCBI result
        let finalContent := repairStep (truncateStep maxResultLength normalized)
        some (joinNl [[], "📤 **Tool Result**:".data, "```".data, finalContent, "```".data])
  else some []

/-- `Option.mapM`-style sequential traversal (a thrown exception in any call
aborts the whole computation, as in the JS loop). -/
def mapOpt (f : α → Option β) : List α → Option (List β)
  | [] => some []
  | a :: as =>
    match f a with
    | none => none
    | some b =>
      match mapOpt f as with
      | none => none
      | some bs => some (b :: bs)

/-- `formatContent` (MarkdownExporter.ts:457-475). -/
def formatContent? (maxResultLength : Nat) : ContentValue → Option Str
  | .str s => some (textPipeline s)
  | .parts l => (mapOpt (formatContentPart? maxResultLength) l).map joinNl
  | .part p => formatContentPart? maxResultLength p

/-! ### Turn formatter (MarkdownExporter.ts:48-97) -/

/-- `msg.message?.content || msg.content || ''` (MarkdownExporter.ts:53). -/
def userRawContent (msg : Message) : ContentValue :=
  let nested := msg.message.bind MessageBody.content
  if contentTruthy nested then nested.getD (.str [])
  else if contentTruthy msg.content then msg.content.getD (.str [])
  else .str []

/-- Quote every line of the thinking text (MarkdownExporter.ts:71). -/
def quoteThinking (t : Str) : Str :=
  joinNl ((splitNl t).map (fun l => "> ".data ++ l))

/-- `formatMessage` (MarkdownExporter.ts:48-97); `fmtTs` stands for the
external `dayjs(...).format('YYYY-MM-DD HH:mm:ss')` timestamp formatter. -/
def formatMessage? (fmtTs : Str → Str) (maxResultLength : Nat) (msg : Message) : Option Str :=
  let timestamp := if optTruthy msg.timestamp then fmtTs (msg.timestamp.getD []) else []
  if msg.type = "user".data then
    match formatContent? maxResultLength (userRawContent msg) with
    | none => none
    | some formattedContent =>
      if (trimJs formattedContent).isEmpty then some []
      else some (joinNl ["### 👤 User ".data ++ timestamp ++ "\n".data, formattedContent, []])
  else if msg.type = "assistant".data then
    let thinkingLines : List Str :=
      if optTruthy msg.thinking then
        ["> 🤔 **Thinking**\n>".data, quoteThinking (msg.thinking.getD []), []]
      else []
    let mainContent? : Option Str :=
      match msg.content with
      | some (.parts l) => (mapOpt (formatContentPart? maxResultLength) l).map joinNl
      | _ =>
        match msg.message.bind MessageBody.content with
        | some c => if contentTruthy (some c) then formatContent? maxResultLength c else some []
        | none => some []
    match mainContent? with
    | none => none
    | some mainContent =>
      if optTruthy msg.thinking || !(trimJs mainContent).isEmpty then
        some (joinNl (("### 🤖 Assistant ".data ++ timestamp ++ "\n".data) :: thinkingLines ++
          (if !(trimJs mainContent).isEmpty then [mainContent] else []) ++ [[]]))
      else some []
  else some []

/-! ### Document assembler (MarkdownExporter.ts:21-46, 497-507) -/

structure SessionMetadata where
  sessionId : Str
  timestamp : Str
  cwd : Str
  version : Str

/-- `extractSessionMetadata` (MarkdownExporter.ts:497-507). -/
def extractSessionMetadata (fmtTs : Str → Str) (firstMessage : Message) : Option SessionMetadata :=
  if optTruthy firstMessage.sessionId && optTruthy firstMessage.timestamp &&
      optTruthy firstMessage.cwd && optTruthy firstMessage.version then
    some { sessionId := firstMessage.sessionId.getD []
           timestamp := fmtTs (firstMessage.timestamp.getD [])
           cwd := firstMessage.cwd.getD []
           version := firstMessage.version.getD [] }
  else none

/-- The `## Session Information` lines (MarkdownExporter.ts:27-31). -/
def sessionInfoLines (md : SessionMetadata) : List Str :=
  ["## Session Information\n".data,
   "- **Session ID**: ".data ++ md.sessionId,
   "- **Started**: ".data ++ md.timestamp,
   "- **Working Directory**: ".data ++ md.cwd,
   "- **Version**: ".data ++ md.version ++ "\n".data]

/-- `convertToMarkdown` (MarkdownExporter.ts:21-46). -/
def convertToMarkdown? (fmtTs : Str → Str) (maxResultLength : Nat)
    (messages : List Message) : Option Str :=
  match mapOpt (formatMessage? fmtTs maxResultLength) messages with
  | none => none
  | some fms =>
    let metaLines : List Str :=
      match messages with
      | [] => []
      | first :: _ =>
        match extractSessionMetadata fmtTs first with
        | some md => sessionInfoLines md
        | none => []
    some (joinNl ("# Claude Conversation\n".data :: metaLines ++
      "## Conversation\n".data :: fms.filter (fun fm => !(trimJs fm).isEmpty)))

/-! ### Definitions used to state the claims -/

/-- Modelled from the claim text of C1 (not from the code): the cut position
the claim describes — the last newline at or before the limit when it lies
within 100 characters of the limit, else exactly the limit. -/
def claimCut (maxResultLength : Nat) (n : Str) : Nat :=
  match lastNlLe n maxResultLength with
  | some i => if maxResultLength < i + 100 then i else maxResultLength
  | none => maxResultLength

/-- Claim C1 as stated, at one input: for tool-result string content whose
normalized form exceeds the limit and is not already truncated, the body ends
with the marker, at most `max + 99` characters precede it, and the cut is at
`claimCut`. -/
def c1ClaimAt (maxResultLength : Nat) (s : Str) : Prop :=
  let n := normalizeCBI (removeCatLineNumbers (cleanMetadataL s))
  maxResultLength < n.length → isAlreadyTruncated n = false →
    (∃ p, repairStep (truncateStep maxResultLength n) = p ++ truncMarker ∧
      p.length ≤ maxResultLength + 99) ∧
    truncateStep maxResultLength n = n.take (claimCut maxResultLength n) ++ '\n' :: truncMarker

/-- Claim C2 as stated, at one final content: an odd number of fence
delimiters makes the output close the fence directly before the truncation
marker. -/
def c2ClaimAt (finalContent : Str) : Prop :=
  countTicks finalContent % 2 = 1 →
    endsWithL (repairStep finalContent) ("```\n".data ++ truncMarker) = true

/-- A paired system-reminder tag with the given body. -/
def srPairTag (body : Str) : Str := "<system-reminder>".data ++ body ++ srClose

/-- A paired submit-hook tag with the given body. -/
def uhPairTag (body : Str) : Str := "<user-prompt-submit-hook>".data ++ body ++ uhClose

/-- A self-closing submit-hook tag. -/
def uhSelfTag : Str := "<user-prompt-submit-hook/>".data

/-- Surrounding text that takes no part in any tag match: free of the two
angle-bracket characters. -/
def noTagChars (s : Str) : Prop := '<' ∉ s ∧ '>' ∉ s

/-- The session-information block as it appears inside the assembled document
(MarkdownExporter.ts:27-31 joined by the surrounding `join('\n')`): the header
and the four labeled fields, each on its own line, followed by a blank line. -/
def sessionBlockStr (md : SessionMetadata) : Str :=
  "## Session Information\n".data ++
    '\n' :: ("- **Session ID**: ".data ++ md.sessionId) ++
    '\n' :: ("- **Started**: ".data ++ md.timestamp) ++
    '\n' :: ("- **Working Directory**: ".data ++ md.cwd) ++
    '\n' :: ("- **Version**: ".data ++ md.version ++ "\n".data) ++ ['\n']

/-- The conversation section after its header: each rendered non-blank turn,
in input order, preceded by the joining newline. -/
def conversationTail (fms : List Str) : Str :=
  ((fms.filter fun fm => !(trimJs fm).isEmpty).map fun fm => '\n' :: fm).flatten

/-- The rendered, non-blank turn bodies the assembler will emit, in order
(`none` when formatting throws). -/
def messageLines? (fmtTs : Str → Str) (maxResultLength : Nat)
    (msgs : List Message) : Option (List Str) :=
  (mapOpt (formatMessage? fmtTs maxResultLength) msgs).map
    (List.filter fun fm => !(trimJs fm).isEmpty)

/-! ## General helper lemmas -/

theorem endsWithL_append_self (a b : Str) : endsWithL (a ++ b) b = true := by
  unfold endsWithL
  exact List.isSuffixOf_iff_suffix.mpr (List.suffix_append a b)

theorem isPrefixOf_cons_of_ne {a c : Char} (as cs : Str) (h : a ≠ c) :
    (a :: as).isPrefixOf (c :: cs) = false := by
  simp [List.isPrefixOf_cons₂, h]

theorem suffix_append_cases {p : Str} :
    ∀ {a : Str} (b : Str), p <:+ a ++ b →
      p <:+ b ∨ ∃ a', a' <:+ a ∧ a' ≠ [] ∧ p = a' ++ b := by
  intro a
  induction a with
  | nil => intro b h; exact Or.inl (by simpa using h)
  | cons c a' ih =>
    intro b h
    rw [List.cons_append] at h
    rcases List.suffix_cons_iff.mp h with h | h
    · exact Or.inr ⟨c :: a', List.suffix_refl _, by simp, by rw [h, List.cons_append]⟩
    · rcases ih b h with h2 | ⟨a'', h1, h2, h3⟩
      · exact Or.inl h2
      · exact Or.inr ⟨a'', h1.trans (List.suffix_cons c a'), h2, h3⟩

/-! ## Scanner lemmas -/

theorem scanRepl_nil (step : Str → Option (Str × Str)) (fuel : Nat) :
    scanRepl step fuel [] = [] := by
  cases fuel <;> rfl

theorem scanRepl_cons_none (step : Str → Option (Str × Str)) (fuel : Nat)
    (c : Char) (cs : Str) (h : step (c :: cs) = none) :
    scanRepl step (fuel + 1) (c :: cs) = c :: scanRepl step fuel cs := by
  simp [scanRepl, h]

theorem scanRepl_cons_some (step : Str → Option (Str × Str)) (fuel : Nat)
    (c : Char) (cs r rest : Str) (h : step (c :: cs) = some (r, rest)) :
    scanRepl step (fuel + 1) (c :: cs) = r ++ scanRepl step fuel rest := by
  simp [scanRepl, h]

/-- A scan on which no position matches is the identity. -/
theorem scanRepl_id (step : Str → Option (Str × Str)) (fuel : Nat) :
    ∀ s : Str, (∀ t, t ≠ [] → t <:+ s → step t = none) → scanRepl step fuel s = s := by
  induction fuel with
  | zero => intro s _; rfl
  | succ f ih =>
    intro s h
    cases s with
    | nil => rfl
    | cons c cs =>
      rw [scanRepl_cons_none step f c cs (h (c :: cs) (by simp) (List.suffix_refl _))]
      rw [ih cs (fun t ht hsuf => h t ht (hsuf.trans (List.suffix_cons c cs)))]

/-- A scan walks unmatched text unchanged until the remainder. -/
theorem scanRepl_append_skip (step : Str → Option (Str × Str)) :
    ∀ (pre : Str) (fuel : Nat) (rest : Str),
      (∀ p', p' ≠ [] → p' <:+ pre → step (p' ++ rest) = none) →
      scanRepl step fuel (pre ++ rest) = pre ++ scanRepl step (fuel - pre.length) rest := by
  intro pre
  induction pre with
  | nil => intro fuel rest _; simp
  | cons c p ih =>
    intro fuel rest h
    cases fuel with
    | zero => simp [scanRepl]
    | succ f =>
      have hstep : step ((c :: p) ++ rest) = none :=
        h (c :: p) (by simp) (List.suffix_refl _)
      rw [List.cons_append, scanRepl_cons_none step f c (p ++ rest) hstep]
      rw [ih f rest (fun p' hne hsuf => h p' hne (hsuf.trans (List.suffix_cons c p)))]
      simp [Nat.succ_sub_succ]

/-! ## Step characterizations for the scrubber scanners -/

theorem isPrefixOf_append_self (l t : Str) : l.isPrefixOf (l ++ t) = true :=
  List.isPrefixOf_iff_prefix.mpr (List.prefix_append l t)

theorem pairStep_none_of_not_pre (openLit closeLit s : Str)
    (h : openLit.isPrefixOf s = false) : pairStep openLit closeLit s = none := by
  unfold pairStep
  simp [h]

theorem selfStep_none_of_not_pre (s : Str) (h : uhOpen.isPrefixOf s = false) :
    selfStep s = none := by
  unfold selfStep
  simp [h]

theorem captureStep_none_of_not_pre (openLit closeLit : Str) (ae : Bool)
    (repl : Str → Str) (s : Str) (h : openLit.isPrefixOf s = false) :
    captureStep openLit closeLit ae repl s = none := by
  unfold captureStep
  simp [h]

theorem stderrStep_none_of_not_pre (s : Str)
    (h : "<local-command-stderr>".data.isPrefixOf s = false) : stderrStep s = none := by
  unfold stderrStep
  simp [h]

theorem stdoutStep_none_of_not_pre (s : Str)
    (h : "<local-command-stdout>".data.isPrefixOf s = false) : stdoutStep s = none := by
  unfold stdoutStep
  simp [h]

theorem collapseStep_none_of_not_pre (s : Str)
    (h : "\n\n\n".data.isPrefixOf s = false) : collapseStep s = none := by
  unfold collapseStep
  simp [h]

/-- A scanner whose step only fires on a `bad`-headed position is the
identity on `bad`-free text. -/
theorem runScan_id_of_none_head (step : Str → Option (Str × Str)) (bad : Char)
    (hstep : ∀ c cs, c ≠ bad → step (c :: cs) = none)
    (s : Str) (hs : bad ∉ s) : runScan step s = s := by
  unfold runScan
  apply scanRepl_id
  intro t ht hsuf
  cases t with
  | nil => exact absurd rfl ht
  | cons c cs =>
    refine hstep c cs fun hc => hs ?_
    exact hsuf.subset (by simp [hc])

theorem head_ne_of_not_mem {c bad : Char} {L : Str} (h : bad ∉ L)
    (hmem : c ∈ L) : c ≠ bad := fun hc => h (hc ▸ hmem)

theorem pairStep_none_head (openLit closeLit : Str) (hopen : openLit.head? = some '<')
    (c : Char) (cs : Str) (hc : c ≠ '<') : pairStep openLit closeLit (c :: cs) = none := by
  cases openLit with
  | nil => simp at hopen
  | cons o ot =>
    have ho : o = '<' := by simpa using hopen
    exact pairStep_none_of_not_pre _ _ _ (ho ▸ isPrefixOf_cons_of_ne ot cs (Ne.symm hc))

theorem selfStep_none_head (c : Char) (cs : Str) (hc : c ≠ '<') :
    selfStep (c :: cs) = none :=
  selfStep_none_of_not_pre _ (by
    rw [show uhOpen = '<' :: "user-prompt-submit-hook".data from rfl]
    exact isPrefixOf_cons_of_ne _ cs (Ne.symm hc))

theorem captureStep_none_head (openLit closeLit : Str) (ae : Bool) (repl : Str → Str)
    (hopen : openLit.head? = some '<') (c : Char) (cs : Str) (hc : c ≠ '<') :
    captureStep openLit closeLit ae repl (c :: cs) = none := by
  cases openLit with
  | nil => simp at hopen
  | cons o ot =>
    have ho : o = '<' := by simpa using hopen
    exact captureStep_none_of_not_pre _ _ _ _ _ (ho ▸ isPrefixOf_cons_of_ne ot cs (Ne.symm hc))

theorem stderrStep_none_head (c : Char) (cs : Str) (hc : c ≠ '<') :
    stderrStep (c :: cs) = none :=
  stderrStep_none_of_not_pre _ (by
    rw [show "<local-command-stderr>".data = '<' :: "local-command-stderr>".data from rfl]
    exact isPrefixOf_cons_of_ne _ cs (Ne.symm hc))

theorem stdoutStep_none_head (c : Char) (cs : Str) (hc : c ≠ '<') :
    stdoutStep (c :: cs) = none :=
  stdoutStep_none_of_not_pre _ (by
    rw [show "<local-command-stdout>".data = '<' :: "local-command-stdout>".data from rfl]
    exact isPrefixOf_cons_of_ne _ cs (Ne.symm hc))

theorem collapseStep_none_head (c : Char) (cs : Str) (hc : c ≠ '\n') :
    collapseStep (c :: cs) = none :=
  collapseStep_none_of_not_pre _ (by
    rw [show "\n\n\n".data = '\n' :: "\n\n".data from rfl]
    exact isPrefixOf_cons_of_ne _ cs (Ne.symm hc))

/-! ## splitNl / joinNl lemmas -/

theorem joinNl_cons_cons (x y : Str) (ys : List Str) :
    joinNl (x :: y :: ys) = x ++ '\n' :: joinNl (y :: ys) := rfl

theorem splitNl_ne_nil (s : Str) : splitNl s ≠ [] := by
  induction s using splitNl.induct with
  | case1 => simp [splitNl]
  | case2 rest ih => simp [splitNl]
  | case3 c rest hne h ih => exact absurd h ih
  | case4 c rest hne hd tl h ih =>
    rw [splitNl]
    · rw [h]
      simp
    · exact hne

theorem joinNl_splitNl (s : Str) : joinNl (splitNl s) = s := by
  induction s using splitNl.induct with
  | case1 => rfl
  | case2 rest ih =>
    show joinNl ([] :: splitNl rest) = '\n' :: rest
    cases h : splitNl rest with
    | nil => exact absurd h (splitNl_ne_nil rest)
    | cons hd tl =>
      rw [h] at ih
      rw [joinNl_cons_cons, ih]
      rfl
  | case3 c rest hne h ih => exact absurd h (splitNl_ne_nil rest)
  | case4 c rest hne hd tl h ih =>
    rw [splitNl]
    · rw [h]
      rw [h] at ih
      cases tl with
      | nil =>
        have h2 : hd = rest := ih
        show joinNl [c :: hd] = c :: rest
        rw [show joinNl [c :: hd] = c :: hd from rfl, h2]
      | cons t ts =>
        rw [joinNl_cons_cons] at ih ⊢
        rw [← ih]
        rfl
    · exact hne

theorem mem_splitNl_subset (s : Str) :
    ∀ l ∈ splitNl s, ∀ c ∈ l, c ∈ s := by
  induction s using splitNl.induct with
  | case1 =>
    intro l hl c hc
    simp [splitNl] at hl
    subst hl
    simp at hc
  | case2 rest ih =>
    intro l hl c hc
    have hl2 : l ∈ [] :: splitNl rest := hl
    rcases List.mem_cons.mp hl2 with rfl | hl3
    · simp at hc
    · exact List.mem_cons_of_mem _ (ih l hl3 c hc)
  | case3 c0 rest hne h ih =>
    intro l hl
    exact absurd h (splitNl_ne_nil rest)
  | case4 c0 rest hne hd tl h ih =>
    intro l hl c hc
    rw [splitNl] at hl
    · rw [h] at hl
      rcases List.mem_cons.mp hl with rfl | hl2
      · rcases List.mem_cons.mp hc with rfl | hc2
        · exact List.mem_cons_self _ _
        · exact List.mem_cons_of_mem _
            (ih hd (by rw [h]; exact List.mem_cons_self _ _) c hc2)
      · exact List.mem_cons_of_mem _
          (ih l (by rw [h]; exact List.mem_cons_of_mem _ hl2) c hc)
    · exact hne

/-! ## The scrubber passes are the identity on tag-free text -/

theorem squeezeQuoteGaps_id (fuel : Nat) :
    ∀ (b : Bool) (s : Str), '>' ∉ s → squeezeQuoteGaps fuel b s = s := by
  induction fuel with
  | zero => intro b s _; rfl
  | succ f ih =>
    intro b s hs
    cases s with
    | nil => rfl
    | cons c cs =>
      have hline : ("> ".data.isPrefixOf ((c :: cs).takeWhile fun x => x ≠ '\n')) = false := by
        by_contra hb
        have hb2 : "> ".data.isPrefixOf ((c :: cs).takeWhile fun x => x ≠ '\n') = true := by
          simpa using hb
        obtain ⟨t2, ht2⟩ := List.isPrefixOf_iff_prefix.mp hb2
        have hmem : '>' ∈ (c :: cs).takeWhile fun x => x ≠ '\n' := by
          rw [← ht2]; simp
        exact hs (((List.takeWhile_sublist _).subset) hmem)
      rw [squeezeQuoteGaps]
      swap
      · simp
      rw [hline]
      simp only [Bool.false_and, Bool.and_false]
      rw [if_neg (show ¬(false = true) by decide)]
      cases hrest : (c :: cs).dropWhile (fun x => x ≠ '\n') with
      | nil =>
        show (c :: cs).takeWhile (fun x => x ≠ '\n') = c :: cs
        conv_rhs => rw [← List.takeWhile_append_dropWhile (fun x => decide (x ≠ '\n')) (c :: cs)]
        rw [hrest, List.append_nil]
      | cons r rest2 =>
        have hr : r = '\n' := by
          have h3 := List.head?_dropWhile_not (fun x => decide (x ≠ '\n')) (c :: cs)
          rw [hrest] at h3
          simpa using h3
        have hrest2 : '>' ∉ rest2 := fun hmem =>
          hs (((List.dropWhile_sublist _).subset) (hrest ▸ List.mem_cons_of_mem r hmem))
        show (c :: cs).takeWhile (fun x => x ≠ '\n') ++ '\n' :: squeezeQuoteGaps f true rest2
          = c :: cs
        rw [ih true rest2 hrest2]
        conv_rhs => rw [← List.takeWhile_append_dropWhile (fun x => decide (x ≠ '\n')) (c :: cs)]
        rw [hrest, hr]

theorem appendQuoteBreaks_id (s : Str) (hgt : '>' ∉ s) : appendQuoteBreaks s = s := by
  unfold appendQuoteBreaks
  have hmap : ∀ l ∈ splitNl s,
      (if "> ".data.isPrefixOf l && decide (2 < l.length) then l ++ "  ".data else l) = l := by
    intro l hl
    have hp : ("> ".data.isPrefixOf l) = false := by
      by_contra hb
      have hb2 : "> ".data.isPrefixOf l = true := by simpa using hb
      obtain ⟨t2, ht2⟩ := List.isPrefixOf_iff_prefix.mp hb2
      have : '>' ∈ l := by rw [← ht2]; simp
      exact hgt (mem_splitNl_subset s l hl '>' this)
    simp [hp]
  rw [List.map_congr_left hmap, List.map_id', joinNl_splitNl]

theorem stripUserPromptHook_id (s : Str) (hlt : '<' ∉ s) : stripUserPromptHook s = s :=
  runScan_id_of_none_head _ '<'
    (fun c cs hc => pairStep_none_head uhOpen uhClose (by rfl) c cs hc) s hlt

theorem stripSystemReminder_id (s : Str) (hlt : '<' ∉ s) : stripSystemReminder s = s :=
  runScan_id_of_none_head _ '<'
    (fun c cs hc => pairStep_none_head srOpen srClose (by rfl) c cs hc) s hlt

theorem stripStandaloneHook_id (s : Str) (hlt : '<' ∉ s) : stripStandaloneHook s = s :=
  runScan_id_of_none_head _ '<' (fun c cs hc => selfStep_none_head c cs hc) s hlt

theorem formatCommandTags_id (s : Str) (hlt : '<' ∉ s) (hgt : '>' ∉ s) :
    formatCommandTags s = s := by
  unfold formatCommandTags
  rw [runScan_id_of_none_head _ '<'
    (fun c cs hc => captureStep_none_head "<command-name>".data "</command-name>".data
      false commandNameRepl (by rfl) c cs hc) s hlt]
  rw [runScan_id_of_none_head _ '<'
    (fun c cs hc => captureStep_none_head "<command-message>".data "</command-message>".data
      false commandMessageRepl (by rfl) c cs hc) s hlt]
  rw [runScan_id_of_none_head _ '<'
    (fun c cs hc => captureStep_none_head "<command-args>".data "</command-args>".data
      true commandArgsRepl (by rfl) c cs hc) s hlt]
  rw [show squeezeQuoteGapsRun s = s from squeezeQuoteGaps_id _ _ _ hgt]
  rw [appendQuoteBreaks_id _ hgt]
  rw [runScan_id_of_none_head _ '<' (fun c cs hc => stderrStep_none_head c cs hc) s hlt]
  rw [runScan_id_of_none_head _ '<' (fun c cs hc => stdoutStep_none_head c cs hc) s hlt]

/-! ## Newline-collapse and trim lemmas (claim C4) -/

theorem dropWhile_eq_self_of_head (p : Char → Bool) (l : Str)
    (h : ∀ c, l.head? = some c → p c = false) : l.dropWhile p = l := by
  cases l with
  | nil => rfl
  | cons x xs =>
    rw [List.dropWhile_cons, h x rfl]
    simp

theorem head_not_of_dropWhile_self {p : Char → Bool} {l : Str} (h : l.dropWhile p = l)
    {c : Char} (hc : l.head? = some c) : p c = false := by
  cases l with
  | nil => simp at hc
  | cons x xs =>
    have hx : x = c := by simpa using hc
    subst hx
    by_contra hb
    have hb2 : p x = true := by simpa using hb
    rw [List.dropWhile_cons, if_pos hb2] at h
    have h2 := congrArg List.length h
    have hle := (List.dropWhile_sublist (l := xs) p).length_le
    simp at h2
    omega

theorem dropWhile_nl_replicate (b : Str) (hb : '\n' ∉ b) :
    ∀ k : Nat, (List.replicate k '\n' ++ b).dropWhile (fun c => c = '\n') = b := by
  intro k
  induction k with
  | zero =>
    simp only [List.replicate, List.nil_append]
    apply dropWhile_eq_self_of_head
    intro c hc
    have hcb : c ∈ b := by
      cases b with
      | nil => simp at hc
      | cons x xs => simp at hc; simp [hc]
    simp [head_ne_of_not_mem hb hcb]
  | succ n ih =>
    rw [List.replicate_succ, List.cons_append, List.dropWhile_cons]
    simpa using ih

theorem collapseStep_replicate_ge3 (b : Str) (hb : '\n' ∉ b) (n : Nat) :
    collapseStep (List.replicate (n + 3) '\n' ++ b) =
      some (['\n', '\n'], b) := by
  have hsplit : List.replicate (n + 3) '\n' ++ b =
      "\n\n\n".data ++ (List.replicate n '\n' ++ b) := by
    rw [show ("\n\n\n".data : Str) = List.replicate 3 '\n' from rfl]
    rw [← List.append_assoc, ← List.replicate_add]
    rw [Nat.add_comm n 3]
  unfold collapseStep
  rw [hsplit, isPrefixOf_append_self]
  rw [← hsplit, dropWhile_nl_replicate b hb]
  simp

theorem collapseStep_replicate_le2 (b : Str) (hb : '\n' ∉ b) (j : Nat) (hj : j ≤ 2) :
    collapseStep (List.replicate j '\n' ++ b) = none := by
  apply collapseStep_none_of_not_pre
  rw [show ("\n\n\n".data : Str) = ['\n', '\n', '\n'] from rfl]
  interval_cases j
  · cases b with
    | nil => rfl
    | cons x xs =>
      simp only [List.replicate, List.nil_append]
      exact isPrefixOf_cons_of_ne _ _ (Ne.symm (head_ne_of_not_mem hb (List.mem_cons_self x xs)))
  · cases b with
    | nil => rfl
    | cons x xs =>
      have hx : x ≠ '\n' := head_ne_of_not_mem hb (List.mem_cons_self x xs)
      simp [List.replicate, List.isPrefixOf_cons₂, hx, Ne.symm hx]
  · cases b with
    | nil => rfl
    | cons x xs =>
      have hx : x ≠ '\n' := head_ne_of_not_mem hb (List.mem_cons_self x xs)
      simp [List.replicate, List.isPrefixOf_cons₂, hx, Ne.symm hx]

/-- A maximal newline run of length `k` between newline-free context collapses
to `min k 2` newlines. -/
theorem collapseNewlines_run (a b : Str) (k : Nat) (ha : '\n' ∉ a) (hb : '\n' ∉ b) :
    collapseNewlines (a ++ List.replicate k '\n' ++ b) =
      a ++ List.replicate (min k 2) '\n' ++ b := by
  unfold collapseNewlines runScan
  rw [List.append_assoc]
  rw [scanRepl_append_skip collapseStep a _ _ ?hskip]
  case hskip =>
    intro p' hne hsuf
    cases p' with
    | nil => exact absurd rfl hne
    | cons c cs =>
      exact collapseStep_none_head c _ (head_ne_of_not_mem ha (hsuf.subset (List.mem_cons_self c cs)))
  by_cases hk : 3 ≤ k
  · obtain ⟨n, rfl⟩ : ∃ n, k = n + 3 := ⟨k - 3, by omega⟩
    have hstep := collapseStep_replicate_ge3 b hb n
    have hcons : List.replicate (n + 3) '\n' ++ b =
        '\n' :: (List.replicate (n + 2) '\n' ++ b) := by
      rw [show n + 3 = (n + 2) + 1 from rfl, List.replicate_succ, List.cons_append]
    have hfuel : (a ++ (List.replicate (n + 3) '\n' ++ b)).length + 1 - a.length =
        (List.replicate (n + 3) '\n' ++ b).length + 1 := by
      simp [List.length_append]
      omega
    rw [hfuel, hcons]
    rw [scanRepl_cons_some collapseStep _ _ _ _ _ (by rw [← hcons]; exact hstep)]
    rw [scanRepl_id collapseStep _ b ?hb2]
    case hb2 =>
      intro t ht hsuf
      cases t with
      | nil => exact absurd rfl ht
      | cons c cs =>
        exact collapseStep_none_head c _ (head_ne_of_not_mem hb (hsuf.subset (List.mem_cons_self c cs)))
    have hmin : min (n + 3) 2 = 2 := by omega
    rw [hmin]
    simp
  · have hk2 : k ≤ 2 := by omega
    rw [scanRepl_id collapseStep _ _ ?hrun]
    case hrun =>
      intro t ht hsuf
      rcases suffix_append_cases _ hsuf with hsuf2 | ⟨r', hr1, hr2, rfl⟩
      · cases t with
        | nil => exact absurd rfl ht
        | cons c cs =>
          exact collapseStep_none_head c _
            (head_ne_of_not_mem hb (hsuf2.subset (List.mem_cons_self c cs)))
      · have hall : ∀ x ∈ r', x = '\n' := fun x hx => by
          have := (hr1.subset) hx
          simpa using List.eq_of_mem_replicate this
        have hrep : r' = List.replicate r'.length '\n' := List.eq_replicate_of_mem hall
        have hlen : r'.length ≤ 2 := le_trans hr1.length_le (by simp [hk2])
        rw [hrep]
        exact collapseStep_replicate_le2 b hb _ hlen
    rw [Nat.min_eq_left hk2]
    simp

theorem trimJs_trimJs (s : Str) : trimJs (trimJs s) = trimJs s := by
  have hu : (s.dropWhile isJsWs).dropWhile isJsWs = s.dropWhile isJsWs :=
    List.dropWhile_idempotent _ _
  set u := s.dropWhile isJsWs with hudef
  set w := (u.reverse.dropWhile isJsWs).reverse with hwdef
  have hw1 : w.dropWhile isJsWs = w := by
    apply dropWhile_eq_self_of_head
    intro c hc
    have hpre : w <+: u := by
      rw [← List.reverse_suffix, hwdef, List.reverse_reverse]
      exact List.dropWhile_suffix _
    obtain ⟨t, ht⟩ := hpre
    have huc : u.head? = some c := by
      rw [← ht, List.head?_append, hc]
      rfl
    exact head_not_of_dropWhile_self hu huc
  have hw2 : w.reverse.dropWhile isJsWs = w.reverse := by
    rw [hwdef, List.reverse_reverse]
    exact List.dropWhile_idempotent _ _
  show ((w.dropWhile isJsWs).reverse.dropWhile isJsWs).reverse = w
  rw [hw1, hw2, List.reverse_reverse]

/-! ## Claim C4: blank-line collapsing and trimming -/

/-- C4 (amended): the scrubber's final step collapses every maximal run of
`k ≥ 3` newline characters (two or more blank lines) down to exactly two
newlines (one blank line) and leaves runs of at most two newlines unchanged —
both cases captured by `min k 2` — and the scrubbed result is trimmed of
leading and trailing whitespace; the collapse-and-trim step runs after all tag
substitutions. -/
theorem c4_collapse_and_trim (s a b : Str) (k : Nat) (ha : '\n' ∉ a) (hb : '\n' ∉ b) :
    collapseNewlines (a ++ List.replicate k '\n' ++ b) =
      a ++ List.replicate (min k 2) '\n' ++ b ∧
    cleanMetadataL s = trimJs (collapseNewlines (formatCommandTags
      (stripStandaloneHook (stripSystemReminder (stripUserPromptHook s))))) ∧
    trimJs (cleanMetadataL s) = cleanMetadataL s :=
  ⟨collapseNewlines_run a b k ha hb, rfl, trimJs_trimJs _⟩

/-- C4 witness: a three-newline run between newline-free text collapses to a
single blank line, and a scrubbed string is trimmed. -/
theorem c4_collapse_and_trim_witness :
    ('\n' ∉ "a".data ∧ '\n' ∉ "b".data) ∧
    (collapseNewlines ("a".data ++ List.replicate 3 '\n' ++ "b".data) =
      "a".data ++ List.replicate (min 3 2) '\n' ++ "b".data ∧
    cleanMetadataL " x ".data = trimJs (collapseNewlines (formatCommandTags
      (stripStandaloneHook (stripSystemReminder (stripUserPromptHook " x ".data))))) ∧
    trimJs (cleanMetadataL " x ".data) = cleanMetadataL " x ".data) :=
  ⟨⟨by decide, by decide⟩,
    c4_collapse_and_trim " x ".data "a".data "b".data 3 (by decide) (by decide)⟩

/-! ## Claim C1: truncation cut point and length bound -/

theorem lastIdxOfNl_lt_length : ∀ (s : Str) (i : Nat), lastIdxOfNl s = some i → i < s.length := by
  intro s
  induction s with
  | nil => intro i h; simp [lastIdxOfNl] at h
  | cons c cs ih =>
    intro i h
    rw [lastIdxOfNl] at h
    cases h2 : lastIdxOfNl cs with
    | some j =>
      rw [h2] at h
      simp only [Option.some.injEq] at h
      have := ih j h2
      simp [← h]
      omega
    | none =>
      rw [h2] at h
      by_cases hc : c = '\n'
      · simp only [if_pos hc, Option.some.injEq] at h
        simp [← h]
      · simp [if_neg hc] at h

theorem lastNlLe_le (s : Str) (cut : Nat) (i : Nat) (h : lastNlLe s cut = some i) : i ≤ cut := by
  unfold lastNlLe at h
  have h1 := lastIdxOfNl_lt_length _ _ h
  have h2 : (s.take (cut + 1)).length ≤ cut + 1 := by
    simp [List.length_take]
  omega

theorem claimCut_le (maxResultLength : Nat) (n : Str) :
    claimCut maxResultLength n ≤ maxResultLength := by
  unfold claimCut
  cases h : lastNlLe n maxResultLength with
  | none => simp
  | some i =>
    by_cases hc : maxResultLength < i + 100
    · simpa [hc] using lastNlLe_le n maxResultLength i h
    · simp [hc]

/-- On an over-length, not-yet-truncated text, the code's Int-based break
point equals the claim's cut point, provided the limit is at least 99. -/
theorem truncateStep_eq_claimCut (maxResultLength : Nat) (n : Str)
    (h99 : 99 ≤ maxResultLength) (hlen : maxResultLength < n.length)
    (ht : isAlreadyTruncated n = false) :
    truncateStep maxResultLength n =
      n.take (claimCut maxResultLength n) ++ '\n' :: truncMarker := by
  unfold truncateStep claimCut
  rw [ht]
  simp only [Bool.false_or, decide_eq_true_eq]
  rw [if_neg (by omega)]
  cases hnl : lastNlLe n maxResultLength with
  | none =>
    simp only
    rw [if_neg (by omega)]
    simp
  | some i =>
    simp only
    by_cases hc : maxResultLength < i + 100
    · rw [if_pos (by omega), if_pos hc]
      simp
    · rw [if_neg (by omega), if_neg hc]
      simp

/-- Appending the repair step to marker-terminated text either keeps it or
adds a fence close plus a second marker. -/
theorem repairStep_of_marker (t q : Str) (hq : t = q ++ truncMarker) :
    repairStep t = t ∨ repairStep t = t ++ ("\n```\n".data ++ truncMarker) := by
  subst hq
  unfold repairStep
  by_cases hodd : countTicks (q ++ truncMarker) % 2 = 1
  · by_cases hopen : lastFenceLooksOpen (q ++ truncMarker) = true
    · right
      rw [if_pos hodd, if_pos hopen]
      simp [List.append_assoc]
    · left
      rw [if_pos hodd, if_neg (by simp [hopen])]
  · left
    rw [if_neg hodd]
    have hend : endsWithL (q ++ truncMarker) "... (truncated)".data = true :=
      endsWithL_append_self q _
    rw [if_neg (by simp [hend])]

/-- C1 (amended): for `maxResultLength ≥ 99` and tool-result string content
whose cleaned text is non-blank, the rendered body is the repaired truncation
of the normalized text, the body ends with the truncation marker after at most
`maxResultLength + 99` characters, and the cut is at the last newline at or
before the limit when within 100 characters of it, else at the exact limit
(`claimCut`). -/
theorem c1_truncation_bound (maxResultLength : Nat) (s : Str)
    (h99 : 99 ≤ maxResultLength)
    (hne : (trimJs (removeCatLineNumbers (cleanMetadataL s))).isEmpty = false) :
    formatContentPart? maxResultLength
        { type := "tool_result".data, content := some (.str s) } =
      some (joinNl [[], "📤 **Tool Result**:".data, "```".data,
        repairStep (truncateStep maxResultLength
          (normalizeCBI (removeCatLineNumbers (cleanMetadataL s)))), "```".data]) ∧
    c1ClaimAt maxResultLength s := by
  constructor
  · unfold formatContentPart?
    rw [if_neg (by simp), if_neg (by simp), if_pos rfl]
    simp only [hne]
    rw [if_neg (by simp [hne])]
  · intro hlen ht
    set n := normalizeCBI (removeCatLineNumbers (cleanMetadataL s)) with hn
    have hcut := truncateStep_eq_claimCut maxResultLength n h99 hlen ht
    refine ⟨?_, hcut⟩
    have hq : truncateStep maxResultLength n =
        (n.take (claimCut maxResultLength n) ++ ['\n']) ++ truncMarker := by
      rw [hcut]
      simp
    have hqlen : (n.take (claimCut maxResultLength n) ++ ['\n']).length ≤ maxResultLength + 1 := by
      have h1 : (n.take (claimCut maxResultLength n)).length ≤ claimCut maxResultLength n := by
        simp [List.length_take]
      have h2 := claimCut_le maxResultLength n
      simp only [List.length_append, List.length_cons, List.length_nil]
      omega
    rcases repairStep_of_marker _ _ hq with h | h
    · refine ⟨n.take (claimCut maxResultLength n) ++ ['\n'], by rw [h, hq], ?_⟩
      exact le_trans hqlen (by omega)
    · refine ⟨(n.take (claimCut maxResultLength n) ++ ['\n']) ++ truncMarker ++ "\n```\n".data,
        ?_, ?_⟩
      · rw [h, hq]
        simp [List.append_assoc]
      · have hm : (truncMarker : Str).length = 15 := by decide
        have hc : ("\n```\n".data : Str).length = 5 := by decide
        simp only [List.length_append, hm, hc]
        simp only [List.length_append, List.length_cons, List.length_nil] at hqlen
        simp only [List.length_append, List.length_cons, List.length_nil]
        omega

set_option maxRecDepth 20000 in
/-- C1 witness: 110 `x` characters with limit 100 — no newline in range, so
the cut is at the exact limit and the body is the 100-character prefix plus
the marker. -/
theorem c1_truncation_bound_witness :
    (99 ≤ 100 ∧
      (trimJs (removeCatLineNumbers (cleanMetadataL (List.replicate 110 'x')))).isEmpty = false) ∧
    (formatContentPart? 100
        { type := "tool_result".data, content := some (.str (List.replicate 110 'x')) } =
      some (joinNl [[], "📤 **Tool Result**:".data, "```".data,
        repairStep (truncateStep 100
          (normalizeCBI (removeCatLineNumbers (cleanMetadataL (List.replicate 110 'x'))))),
        "```".data]) ∧
    c1ClaimAt 100 (List.replicate 110 'x')) :=
  ⟨⟨by omega, by decide⟩,
    c1_truncation_bound 100 (List.replicate 110 'x') (by omega) (by decide)⟩

/-! ## Claim C2: odd fence repair (amended) -/

/-- C2 (amended): with an odd number of fence delimiters, the output closes
the fence directly before a truncation marker exactly when the text after the
last delimiter is blank or a letters-only language tag (`lastFenceLooksOpen`);
otherwise the content is left unchanged. -/
theorem c2_fence_close (finalContent : Str)
    (hodd : countTicks finalContent % 2 = 1) :
    (lastFenceLooksOpen finalContent = true →
      repairStep finalContent = finalContent ++ "\n```\n".data ++ truncMarker ∧
      endsWithL (repairStep finalContent) ("```\n".data ++ truncMarker) = true) ∧
    (lastFenceLooksOpen finalContent = false → repairStep finalContent = finalContent) := by
  constructor
  · intro hopen
    have he : repairStep finalContent = finalContent ++ "\n```\n".data ++ truncMarker := by
      unfold repairStep
      rw [if_pos hodd, if_pos hopen]
    refine ⟨he, ?_⟩
    rw [he, List.append_assoc]
    rw [show ("\n```\n".data ++ truncMarker : Str) = ['\n'] ++ ("```\n".data ++ truncMarker)
      from by decide]
    rw [← List.append_assoc]
    exact endsWithL_append_self _ _
  · intro hclosed
    unfold repairStep
    rw [if_pos hodd, if_neg (by simp [hclosed])]

/-- C2 witness: a lone opening fence is closed before the appended marker. -/
theorem c2_fence_close_witness :
    countTicks "```".data % 2 = 1 ∧
    ((lastFenceLooksOpen "```".data = true →
      repairStep "```".data = "```".data ++ "\n```\n".data ++ truncMarker ∧
      endsWithL (repairStep "```".data) ("```\n".data ++ truncMarker) = true) ∧
    (lastFenceLooksOpen "```".data = false → repairStep "```".data = "```".data)) :=
  ⟨by decide, c2_fence_close "```".data (by decide)⟩


/-! ## Claim C3: tag-pair removal machinery -/

theorem isPrefixOf_two_ne {a0 a1 : Char} (as : Str) {b0 b1 : Char} (bs : Str) (h : a1 ≠ b1) :
    (a0 :: a1 :: as).isPrefixOf (b0 :: b1 :: bs) = false := by
  simp [List.isPrefixOf_cons₂, h]

theorem dropThroughSeq_none (pat : Str) (hpat : pat.head? = some '<') :
    ∀ t : Str, '<' ∉ t → dropThroughSeq? pat t = none := by
  intro t
  induction t with
  | nil => intro _; rfl
  | cons c cs ih =>
    intro hmem
    have hc : c ≠ '<' := head_ne_of_not_mem hmem (List.mem_cons_self _ _)
    cases pat with
    | nil => simp at hpat
    | cons p pt =>
      have hp : p = '<' := by simpa using hpat
      subst hp
      rw [dropThroughSeq?]
      rw [isPrefixOf_cons_of_ne pt _ (Ne.symm hc)]
      simp only [Bool.false_eq_true, if_false]
      exact ih fun h2 => hmem (List.mem_cons_of_mem c h2)

theorem dropThroughSeq_clean_append (pat : Str) (hpat : pat.head? = some '<')
    (body tail : Str) (hbody : '<' ∉ body) :
    dropThroughSeq? pat (body ++ (pat ++ tail)) = some tail := by
  induction body with
  | nil =>
    rw [List.nil_append]
    cases pat with
    | nil => simp at hpat
    | cons p pt =>
      rw [List.cons_append, dropThroughSeq?]
      rw [show (p :: pt).isPrefixOf (p :: (pt ++ tail)) = true from by
        rw [← List.cons_append]; exact isPrefixOf_append_self _ _]
      rw [if_pos rfl]
      rw [show p :: (pt ++ tail) = (p :: pt) ++ tail from by rw [List.cons_append]]
      rw [List.drop_left]
  | cons c cs ih =>
    have hc : c ≠ '<' := head_ne_of_not_mem hbody (List.mem_cons_self _ _)
    rw [List.cons_append, dropThroughSeq?]
    cases pat with
    | nil => simp at hpat
    | cons p pt =>
      have hp : p = '<' := by simpa using hpat
      subst hp
      rw [isPrefixOf_cons_of_ne pt _ (Ne.symm hc)]
      simp only [Bool.false_eq_true, if_false]
      exact ih fun h2 => hbody (List.mem_cons_of_mem c h2)

theorem suffix_cases_clean {t L : Str} (bad : Char) (hsuf : t <:+ L) (hL : bad ∉ L)
    (ht : t ≠ []) : ∃ d ds, t = d :: ds ∧ d ≠ bad := by
  cases t with
  | nil => exact absurd rfl ht
  | cons d ds =>
    exact ⟨d, ds, rfl, head_ne_of_not_mem hL (hsuf.subset (List.mem_cons_self d ds))⟩

theorem suffix_clean_append_cases {t B R : Str} (hsuf : t <:+ B ++ R)
    (hB : '<' ∉ B) (ht : t ≠ []) :
    (∃ d ds, t = d :: ds ∧ d ≠ '<') ∨ (t <:+ R ∧ t ≠ []) := by
  rcases suffix_append_cases R hsuf with h | ⟨a', ha1, ha2, rfl⟩
  · exact Or.inr ⟨h, ht⟩
  · obtain ⟨d, ds, hds, hd⟩ := suffix_cases_clean '<' ha1 hB ha2
    exact Or.inl ⟨d, ds ++ R, by rw [hds, List.cons_append], hd⟩

theorem suffix_lit_cases {t : Str} {c : Char} {L R : Str} (hsuf : t <:+ (c :: L) ++ R)
    (hL : '<' ∉ L) (ht : t ≠ []) :
    t = c :: (L ++ R) ∨ (∃ d ds, t = d :: ds ∧ d ≠ '<') ∨ (t <:+ R ∧ t ≠ []) := by
  rw [List.cons_append] at hsuf
  rcases List.suffix_cons_iff.mp hsuf with rfl | h2
  · exact Or.inl rfl
  · rcases suffix_clean_append_cases h2 hL ht with h3 | h3
    · exact Or.inr (Or.inl h3)
    · exact Or.inr (Or.inr h3)

theorem pairStep_uh_none_s (X : Str) : pairStep uhOpen uhClose ('<' :: 's' :: X) = none :=
  pairStep_none_of_not_pre _ _ _ (by
    rw [show uhOpen = '<' :: 'u' :: "ser-prompt-submit-hook".data from rfl]
    exact isPrefixOf_two_ne _ _ (by decide))

theorem pairStep_uh_none_slash (X : Str) : pairStep uhOpen uhClose ('<' :: '/' :: X) = none :=
  pairStep_none_of_not_pre _ _ _ (by
    rw [show uhOpen = '<' :: 'u' :: "ser-prompt-submit-hook".data from rfl]
    exact isPrefixOf_two_ne _ _ (by decide))

theorem pairStep_sr_none_u (X : Str) : pairStep srOpen srClose ('<' :: 'u' :: X) = none :=
  pairStep_none_of_not_pre _ _ _ (by
    rw [show srOpen = '<' :: 's' :: "ystem-reminder".data from rfl]
    exact isPrefixOf_two_ne _ _ (by decide))

theorem pairStep_sr_none_slash (X : Str) : pairStep srOpen srClose ('<' :: '/' :: X) = none :=
  pairStep_none_of_not_pre _ _ _ (by
    rw [show srOpen = '<' :: 's' :: "ystem-reminder".data from rfl]
    exact isPrefixOf_two_ne _ _ (by decide))

theorem selfStep_none_s (X : Str) : selfStep ('<' :: 's' :: X) = none :=
  selfStep_none_of_not_pre _ (by
    rw [show uhOpen = '<' :: 'u' :: "ser-prompt-submit-hook".data from rfl]
    exact isPrefixOf_two_ne _ _ (by decide))

theorem srPairTag_split (body post : Str) :
    srPairTag body ++ post = srOpen ++ ('>' :: (body ++ (srClose ++ post))) := by
  rw [srPairTag]
  rw [show "<system-reminder>".data = srOpen ++ ['>'] from by decide]
  simp [List.append_assoc]

theorem uhPairTag_split (body post : Str) :
    uhPairTag body ++ post = uhOpen ++ ('>' :: (body ++ (uhClose ++ post))) := by
  rw [uhPairTag]
  rw [show "<user-prompt-submit-hook>".data = uhOpen ++ ['>'] from by decide]
  simp [List.append_assoc]

theorem uhSelfTag_split (post : Str) :
    uhSelfTag ++ post = uhOpen ++ ('/' :: '>' :: post) := by
  rw [show uhSelfTag = uhOpen ++ ['/', '>'] from by decide]
  simp [List.append_assoc]

theorem pairStep_sr_match (body post : Str) (hbody : '<' ∉ body) :
    pairStep srOpen srClose (srPairTag body ++ post) = some ([], post) := by
  rw [srPairTag_split]
  unfold pairStep
  rw [isPrefixOf_append_self, if_pos rfl, List.drop_left]
  rw [show dropThroughChar? '>' ('>' :: (body ++ (srClose ++ post)))
    = some (body ++ (srClose ++ post)) from by simp [dropThroughChar?]]
  dsimp only
  rw [dropThroughSeq_clean_append srClose rfl body post hbody]

theorem pairStep_uh_match (body post : Str) (hbody : '<' ∉ body) :
    pairStep uhOpen uhClose (uhPairTag body ++ post) = some ([], post) := by
  rw [uhPairTag_split]
  unfold pairStep
  rw [isPrefixOf_append_self, if_pos rfl, List.drop_left]
  rw [show dropThroughChar? '>' ('>' :: (body ++ (uhClose ++ post)))
    = some (body ++ (uhClose ++ post)) from by simp [dropThroughChar?]]
  dsimp only
  rw [dropThroughSeq_clean_append uhClose rfl body post hbody]

theorem selfStep_match (post : Str) : selfStep (uhSelfTag ++ post) = some ([], post) := by
  rw [uhSelfTag_split]
  unfold selfStep
  rw [isPrefixOf_append_self, if_pos rfl, List.drop_left]
  rw [show splitAtChar? '>' ('/' :: '>' :: post) = some (['/'], post) from by
    simp [splitAtChar?]]
  simp

theorem pairStep_uh_selfchunk_none (post : Str) (hpost : '<' ∉ post) :
    pairStep uhOpen uhClose (uhSelfTag ++ post) = none := by
  rw [uhSelfTag_split]
  unfold pairStep
  rw [isPrefixOf_append_self, if_pos rfl, List.drop_left]
  rw [show dropThroughChar? '>' ('/' :: '>' :: post) = some post from by
    simp [dropThroughChar?]]
  dsimp only
  rw [dropThroughSeq_none uhClose rfl post hpost]


theorem runScan_id (step : Str → Option (Str × Str)) (s : Str)
    (h : ∀ t, t ≠ [] → t <:+ s → step t = none) : runScan step s = s :=
  scanRepl_id step (s.length + 1) s h

/-- A scan whose step matches exactly once — at the start of `mid`, deleting
it — removes `mid` and keeps the surroundings. -/
theorem runScan_strip (step : Str → Option (Str × Str)) (pre mid post : Str)
    (hm : mid ≠ [])
    (hpre : ∀ p', p' ≠ [] → p' <:+ pre → step (p' ++ (mid ++ post)) = none)
    (hmatch : step (mid ++ post) = some ([], post))
    (hpost : ∀ t, t ≠ [] → t <:+ post → step t = none) :
    runScan step (pre ++ (mid ++ post)) = pre ++ post := by
  unfold runScan
  rw [scanRepl_append_skip step pre ((pre ++ (mid ++ post)).length + 1) (mid ++ post) hpre]
  rw [show (pre ++ (mid ++ post)).length + 1 - pre.length = (mid ++ post).length + 1 from by
    simp only [List.length_append]; omega]
  cases mid with
  | nil => exact absurd rfl hm
  | cons m ms =>
    rw [show ((m :: ms) ++ post).length + 1 = (ms ++ post).length + 1 + 1 from by
      simp only [List.cons_append, List.length_cons]]
    rw [List.cons_append]
    rw [scanRepl_cons_some step ((ms ++ post).length + 1) m (ms ++ post) [] post
      (by rw [← List.cons_append]; exact hmatch)]
    rw [List.nil_append, scanRepl_id step ((ms ++ post).length + 1) post hpost]

theorem suffix_lit2_cases {t : Str} {c1 c2 : Char} {L R : Str}
    (hsuf : t <:+ (c1 :: c2 :: L) ++ R) (hc2 : c2 ≠ '<') (hL : '<' ∉ L) (ht : t ≠ []) :
    t = c1 :: c2 :: (L ++ R) ∨ (∃ d ds, t = d :: ds ∧ d ≠ '<') ∨ (t <:+ R ∧ t ≠ []) := by
  rw [List.cons_append, List.cons_append] at hsuf
  rcases List.suffix_cons_iff.mp hsuf with rfl | h2
  · exact Or.inl rfl
  · rcases List.suffix_cons_iff.mp h2 with rfl | h3
    · exact Or.inr (Or.inl ⟨c2, L ++ R, rfl, hc2⟩)
    · rcases suffix_clean_append_cases h3 hL ht with h4 | h4
      · exact Or.inr (Or.inl h4)
      · exact Or.inr (Or.inr h4)

theorem srChunk_decomp (body post : Str) :
    srPairTag body ++ post
      = ('<' :: 's' :: "ystem-reminder>".data)
          ++ (body ++ (('<' :: '/' :: "system-reminder>".data) ++ post)) := by
  rw [srPairTag]
  rw [show "<system-reminder>".data = '<' :: 's' :: "ystem-reminder>".data from by decide]
  rw [show srClose = '<' :: '/' :: "system-reminder>".data from by decide]
  simp [List.append_assoc]

theorem uhChunk_decomp (body post : Str) :
    uhPairTag body ++ post
      = ('<' :: 'u' :: "ser-prompt-submit-hook>".data)
          ++ (body ++ (('<' :: '/' :: "user-prompt-submit-hook>".data) ++ post)) := by
  rw [uhPairTag]
  rw [show "<user-prompt-submit-hook>".data
    = '<' :: 'u' :: "ser-prompt-submit-hook>".data from by decide]
  rw [show uhClose = '<' :: '/' :: "user-prompt-submit-hook>".data from by decide]
  simp [List.append_assoc]

theorem uhSelf_decomp (post : Str) :
    uhSelfTag ++ post = ('<' :: 'u' :: "ser-prompt-submit-hook/>".data) ++ post := by
  rw [show uhSelfTag = '<' :: 'u' :: "ser-prompt-submit-hook/>".data from by decide]

/-- Every non-empty suffix of a string made of `<`-free surroundings around a
paired system-reminder tag either starts with a non-`<` character or starts
exactly at one of the two tag literals. -/
theorem srChunk_suffix_shape {pre body post t : Str}
    (hpre : '<' ∉ pre) (hbody : '<' ∉ body) (hpost : '<' ∉ post)
    (hsuf : t <:+ pre ++ (srPairTag body ++ post)) (ht : t ≠ []) :
    (∃ d ds, t = d :: ds ∧ d ≠ '<')
    ∨ t = '<' :: 's' :: ("ystem-reminder>".data
        ++ (body ++ (('<' :: '/' :: "system-reminder>".data) ++ post)))
    ∨ t = '<' :: '/' :: ("system-reminder>".data ++ post) := by
  rw [srChunk_decomp] at hsuf
  rcases suffix_clean_append_cases hsuf hpre ht with h1 | ⟨h1, _⟩
  · exact Or.inl h1
  · rcases suffix_lit2_cases h1 (by decide) (by decide) ht with h2 | h2 | ⟨h2, _⟩
    · exact Or.inr (Or.inl h2)
    · exact Or.inl h2
    · rcases suffix_clean_append_cases h2 hbody ht with h3 | ⟨h3, _⟩
      · exact Or.inl h3
      · rcases suffix_lit2_cases h3 (by decide) (by decide) ht with h4 | h4 | ⟨h4, _⟩
        · exact Or.inr (Or.inr h4)
        · exact Or.inl h4
        · exact Or.inl (suffix_cases_clean '<' h4 hpost ht)

theorem uhSelfChunk_suffix_shape {pre post t : Str}
    (hpre : '<' ∉ pre) (hpost : '<' ∉ post)
    (hsuf : t <:+ pre ++ (uhSelfTag ++ post)) (ht : t ≠ []) :
    (∃ d ds, t = d :: ds ∧ d ≠ '<')
    ∨ t = '<' :: 'u' :: ("ser-prompt-submit-hook/>".data ++ post) := by
  rw [uhSelf_decomp] at hsuf
  rcases suffix_clean_append_cases hsuf hpre ht with h1 | ⟨h1, _⟩
  · exact Or.inl h1
  · rcases suffix_lit2_cases h1 (by decide) (by decide) ht with h2 | h2 | ⟨h2, _⟩
    · exact Or.inr h2
    · exact Or.inl h2
    · exact Or.inl (suffix_cases_clean '<' h2 hpost ht)

/-- Scrubbing a `<`/`>`-free context around a paired system-reminder tag
removes exactly the tag and its body. -/
theorem cleanMetadataL_sr (pre body post : Str)
    (hpre : noTagChars pre) (hbody : noTagChars body) (hpost : noTagChars post) :
    cleanMetadataL (pre ++ (srPairTag body ++ post))
      = trimJs (collapseNewlines (pre ++ post)) := by
  have hlt : '<' ∉ pre ++ post := fun h => by
    rcases List.mem_append.mp h with h | h
    · exact hpre.1 h
    · exact hpost.1 h
  have hgt : '>' ∉ pre ++ post := fun h => by
    rcases List.mem_append.mp h with h | h
    · exact hpre.2 h
    · exact hpost.2 h
  unfold cleanMetadataL
  rw [show stripUserPromptHook (pre ++ (srPairTag body ++ post))
      = pre ++ (srPairTag body ++ post) from
    runScan_id _ _ fun t ht hsuf => by
      rcases srChunk_suffix_shape hpre.1 hbody.1 hpost.1 hsuf ht with ⟨d, ds, rfl, hd⟩ | rfl | rfl
      · exact pairStep_none_head uhOpen uhClose (by rfl) d ds hd
      · exact pairStep_uh_none_s _
      · exact pairStep_uh_none_slash _]
  rw [show stripSystemReminder (pre ++ (srPairTag body ++ post)) = pre ++ post from
    runScan_strip _ pre (srPairTag body) post (by simp [srPairTag])
      (fun p' hne hsuf => by
        obtain ⟨d, ds, rfl, hd⟩ := suffix_cases_clean '<' hsuf hpre.1 hne
        rw [List.cons_append]
        exact pairStep_none_head srOpen srClose (by rfl) d _ hd)
      (pairStep_sr_match body post hbody.1)
      (fun t ht hsuf => by
        obtain ⟨d, ds, rfl, hd⟩ := suffix_cases_clean '<' hsuf hpost.1 ht
        exact pairStep_none_head srOpen srClose (by rfl) d ds hd)]
  rw [stripStandaloneHook_id _ hlt, formatCommandTags_id _ hlt hgt]

/-- Scrubbing a `<`/`>`-free context around a paired submit-hook tag removes
exactly the tag and its body. -/
theorem cleanMetadataL_uh (pre body post : Str)
    (hpre : noTagChars pre) (hbody : noTagChars body) (hpost : noTagChars post) :
    cleanMetadataL (pre ++ (uhPairTag body ++ post))
      = trimJs (collapseNewlines (pre ++ post)) := by
  have hlt : '<' ∉ pre ++ post := fun h => by
    rcases List.mem_append.mp h with h | h
    · exact hpre.1 h
    · exact hpost.1 h
  have hgt : '>' ∉ pre ++ post := fun h => by
    rcases List.mem_append.mp h with h | h
    · exact hpre.2 h
    · exact hpost.2 h
  unfold cleanMetadataL
  rw [show stripUserPromptHook (pre ++ (uhPairTag body ++ post)) = pre ++ post from
    runScan_strip _ pre (uhPairTag body) post (by simp [uhPairTag])
      (fun p' hne hsuf => by
        obtain ⟨d, ds, rfl, hd⟩ := suffix_cases_clean '<' hsuf hpre.1 hne
        rw [List.cons_append]
        exact pairStep_none_head uhOpen uhClose (by rfl) d _ hd)
      (pairStep_uh_match body post hbody.1)
      (fun t ht hsuf => by
        obtain ⟨d, ds, rfl, hd⟩ := suffix_cases_clean '<' hsuf hpost.1 ht
        exact pairStep_none_head uhOpen uhClose (by rfl) d ds hd)]
  rw [stripSystemReminder_id _ hlt, stripStandaloneHook_id _ hlt,
    formatCommandTags_id _ hlt hgt]

/-- Scrubbing a `<`/`>`-free context around a self-closing submit-hook tag
removes exactly the tag (the third substitution pass catches it). -/
theorem cleanMetadataL_uhSelf (pre post : Str)
    (hpre : noTagChars pre) (hpost : noTagChars post) :
    cleanMetadataL (pre ++ (uhSelfTag ++ post))
      = trimJs (collapseNewlines (pre ++ post)) := by
  have hlt : '<' ∉ pre ++ post := fun h => by
    rcases List.mem_append.mp h with h | h
    · exact hpre.1 h
    · exact hpost.1 h
  have hgt : '>' ∉ pre ++ post := fun h => by
    rcases List.mem_append.mp h with h | h
    · exact hpre.2 h
    · exact hpost.2 h
  unfold cleanMetadataL
  rw [show stripUserPromptHook (pre ++ (uhSelfTag ++ post))
      = pre ++ (uhSelfTag ++ post) from
    runScan_id _ _ fun t ht hsuf => by
      rcases uhSelfChunk_suffix_shape hpre.1 hpost.1 hsuf ht with ⟨d, ds, rfl, hd⟩ | rfl
      · exact pairStep_none_head uhOpen uhClose (by rfl) d ds hd
      · rw [show '<' :: 'u' :: ("ser-prompt-submit-hook/>".data ++ post)
          = uhSelfTag ++ post from by simp [uhSelf_decomp]]
        exact pairStep_uh_selfchunk_none post hpost.1]
  rw [show stripSystemReminder (pre ++ (uhSelfTag ++ post))
      = pre ++ (uhSelfTag ++ post) from
    runScan_id _ _ fun t ht hsuf => by
      rcases uhSelfChunk_suffix_shape hpre.1 hpost.1 hsuf ht with ⟨d, ds, rfl, hd⟩ | rfl
      · exact pairStep_none_head srOpen srClose (by rfl) d ds hd
      · exact pairStep_sr_none_u _]
  rw [show stripStandaloneHook (pre ++ (uhSelfTag ++ post)) = pre ++ post from
    runScan_strip _ pre uhSelfTag post (by decide)
      (fun p' hne hsuf => by
        obtain ⟨d, ds, rfl, hd⟩ := suffix_cases_clean '<' hsuf hpre.1 hne
        rw [List.cons_append]
        exact selfStep_none_head d _ hd)
      (selfStep_match post)
      (fun t ht hsuf => by
        obtain ⟨d, ds, rfl, hd⟩ := suffix_cases_clean '<' hsuf hpost.1 ht
        exact selfStep_none_head d ds hd)]
  rw [formatCommandTags_id _ hlt hgt]

theorem mem_of_isPrefixOf {pat s : Str} (h : pat.isPrefixOf s = true) {c : Char}
    (hc : c ∈ pat) : c ∈ s :=
  (List.isPrefixOf_iff_prefix.mp h).subset hc

/-- A pattern holding a character absent from `s` is no substring of `s`. -/
theorem containsSubB_false_of_not_mem (pat : Str) (c : Char) (hc : c ∈ pat) :
    ∀ s : Str, c ∉ s → containsSubB pat s = false := by
  intro s
  induction s with
  | nil =>
    intro _
    cases pat with
    | nil => simp at hc
    | cons p pt => rfl
  | cons a as ih =>
    intro hs
    show (pat.isPrefixOf (a :: as) || containsSubB pat as) = false
    rw [ih fun h => hs (List.mem_cons_of_mem a h), Bool.or_false]
    cases hpre : pat.isPrefixOf (a :: as) with
    | false => rfl
    | true => exact absurd (mem_of_isPrefixOf hpre hc) hs

/-- Each character emitted by a character-conserving scan comes from its
input. -/
theorem scanRepl_mem_subset (step : Str → Option (Str × Str))
    (hstep : ∀ s r rest, step s = some (r, rest) →
      (∀ c, c ∈ r → c ∈ s) ∧ (∀ c, c ∈ rest → c ∈ s)) :
    ∀ (fuel : Nat) (s : Str) (c : Char), c ∈ scanRepl step fuel s → c ∈ s := by
  intro fuel
  induction fuel with
  | zero => intro s c h; exact h
  | succ f ih =>
    intro s c h
    cases s with
    | nil => rw [scanRepl_nil] at h; exact absurd h (List.not_mem_nil c)
    | cons a as =>
      cases hstep2 : step (a :: as) with
      | none =>
        rw [scanRepl_cons_none step f a as hstep2] at h
        rcases List.mem_cons.mp h with rfl | h2
        · exact List.mem_cons_self _ _
        · exact List.mem_cons_of_mem a (ih as c h2)
      | some pr =>
        obtain ⟨r, rest⟩ := pr
        rw [scanRepl_cons_some step f a as r rest hstep2] at h
        rcases List.mem_append.mp h with h2 | h2
        · exact (hstep _ _ _ hstep2).1 c h2
        · exact (hstep _ _ _ hstep2).2 c (ih rest c h2)

theorem collapseStep_subset (s r rest : Str) (h : collapseStep s = some (r, rest)) :
    (∀ c, c ∈ r → c ∈ s) ∧ (∀ c, c ∈ rest → c ∈ s) := by
  unfold collapseStep at h
  cases hp : "\n\n\n".data.isPrefixOf s with
  | false => rw [hp] at h; simp at h
  | true =>
    rw [hp] at h
    rw [if_pos rfl] at h
    simp only [Option.some.injEq, Prod.mk.injEq] at h
    obtain ⟨hr, hrest⟩ := h
    subst hr
    subst hrest
    constructor
    · intro c hc
      simp at hc
      subst hc
      exact mem_of_isPrefixOf hp (by decide)
    · intro c hc
      exact (List.dropWhile_sublist _).subset hc

theorem mem_collapseNewlines_subset {c : Char} {s : Str}
    (h : c ∈ collapseNewlines s) : c ∈ s :=
  scanRepl_mem_subset collapseStep collapseStep_subset (s.length + 1) s c h

theorem mem_trimJs_subset {c : Char} {s : Str} (h : c ∈ trimJs s) : c ∈ s := by
  unfold trimJs at h
  rw [List.mem_reverse] at h
  have h2 := (List.dropWhile_sublist _).subset h
  rw [List.mem_reverse] at h2
  exact (List.dropWhile_sublist _).subset h2

/-- C5: for every tool-result string already ending in a truncation marker
("... (truncated)" or "(truncated)"), the truncation step is skipped:
re-running truncation on such text is a no-op regardless of its length
relative to `maxResultLength`. -/
theorem c5_truncation_idempotent (maxResultLength : Nat) (s : Str)
    (h : endsWithL s "... (truncated)".data = true ∨ endsWithL s "(truncated)".data = true) :
    truncateStep maxResultLength s = s := by
  have ht : isAlreadyTruncated s = true := by
    unfold isAlreadyTruncated
    rcases h with h | h <;> simp [h]
  unfold truncateStep
  simp [ht]

/-- C5 witness: a marker-terminated string much longer than the limit is left
unchanged by the truncation step. -/
theorem c5_truncation_idempotent_witness :
    (endsWithL "0123456789... (truncated)".data "... (truncated)".data = true ∨
      endsWithL "0123456789... (truncated)".data "(truncated)".data = true) ∧
    truncateStep 5 "0123456789... (truncated)".data = "0123456789... (truncated)".data :=
  ⟨Or.inl (by decide), c5_truncation_idempotent 5 _ (Or.inl (by decide))⟩

/-! ## Claim C9: the formatter throws on a content-less tool result -/

/-- C9 (code bug): evaluating the formatter at the failing input — a
`tool_result` part whose `content` field is absent.  The code computes
`JSON.stringify(undefined, null, 2)`, which is `undefined`, and then calls
`.trim()` on it, raising a `TypeError` (modelled as `none`) instead of
producing the defined string the never-raises policy promises. -/
theorem c9_tool_result_missing_content_throws (maxResultLength : Nat) :
    formatContentPart? maxResultLength { type := "tool_result".data } = none := rfl

/-! ## Claim C10: text parts with absent or empty text render as nothing -/

/-- C10: a ContentPart tagged `text` whose text field is absent or empty falls
through to the unrecognized-tag branch and renders as the empty string. -/
theorem c10_empty_text_part (maxResultLength : Nat) (item : ContentPart)
    (htype : item.type = "text".data) (htext : item.text = none ∨ item.text = some []) :
    formatContentPart? maxResultLength item = some [] := by
  have h1 : optTruthy item.text = false := by
    rcases htext with h | h <;> simp [h, optTruthy]
  unfold formatContentPart?
  rw [htype]
  simp [h1]

/-- C10 witness at a concrete empty text part. -/
theorem c10_empty_text_part_witness :
    ({ type := "text".data, text := some [] : ContentPart }.text = none ∨
      { type := "text".data, text := some [] : ContentPart }.text = some []) ∧
    formatContentPart? 3000 { type := "text".data, text := some [] } = some [] :=
  ⟨Or.inr rfl, c10_empty_text_part 3000 _ rfl (Or.inr rfl)⟩

/-! ## Claim C7: empty tool-use input renders the `(empty)` placeholder -/

/-- C7: a ToolInvocation whose input mapping is absent or empty renders the
labeled Tool Use line followed by a JSON fence containing the `(empty)`
placeholder (see `emptyToolUseBlock`), never the serialized `{}`. -/
theorem c7_empty_tool_use (maxResultLength : Nat) (item : ContentPart)
    (htype : item.type = "tool_use".data)
    (hinput : item.input = none ∨ item.input = some (Json.obj [])) :
    formatContentPart? maxResultLength item = some (emptyToolUseBlock (toolNameOf item)) := by
  have hcond : (jsFalsy item.input || decide (keysLen (item.input.getD Json.null) = 0)) = true := by
    rcases hinput with h | h <;> simp [h, jsFalsy, keysLen]
  unfold formatContentPart?
  rw [htype]
  simp [hcond]

/-- C7 witness at a concrete input-less tool invocation. -/
theorem c7_empty_tool_use_witness :
    ({ type := "tool_use".data, name := some "calc".data : ContentPart }.input = none ∨
      { type := "tool_use".data, name := some "calc".data : ContentPart }.input = some (Json.obj [])) ∧
    formatContentPart? 3000 { type := "tool_use".data, name := some "calc".data } =
      some (emptyToolUseBlock (toolNameOf { type := "tool_use".data, name := some "calc".data })) :=
  ⟨Or.inl rfl, c7_empty_tool_use 3000 _ rfl (Or.inl rfl)⟩

/-! ## Counterexamples for C1-C4 -/

/-- C1 counterexample: with `maxResultLength = 5` and ten `x` characters
(no newline anywhere), `lastIndexOf('\n', 5) = -1` still satisfies
`-1 > 5 - 100`, so the code cuts at `substring(0, -1)`, i.e. position 0 — not
at the exact limit the claim requires (`claimCut` = 5 here). -/
theorem c1_counterexample : ¬ c1ClaimAt 5 (List.replicate 10 'x') := fun h =>
  absurd ((h (by decide) (by decide)).2) (by decide)

/-- C2 counterexample: the tool-result content `"```\nfoo bar"` has an odd
number of fence delimiters, but the text after the last delimiter
(`"foo bar"`) is neither empty nor a letters-only language tag, so the code
leaves the fence unclosed and appends no marker. -/
theorem c2_counterexample :
    countTicks "```\nfoo bar".data % 2 = 1 ∧
    formatContentPart? 3000
        { type := "tool_result".data, content := some (.str "```\nfoo bar".data) } =
      some "\n📤 **Tool Result**:\n```\n```\nfoo bar\n```".data ∧
    ¬ c2ClaimAt "```\nfoo bar".data :=
  ⟨by decide, by decide, fun h => absurd (h (by decide)) (by decide)⟩

/-- C3 counterexample: a self-closing system-reminder tag survives scrubbing
unchanged — only the submit-hook kind has a standalone-tag removal rule — so
the output still contains the tag name. -/
theorem c3_counterexample :
    cleanMetadataL "<system-reminder/>".data = "<system-reminder/>".data ∧
    containsSubB "system-reminder".data (cleanMetadataL "<system-reminder/>".data) = true :=
  ⟨by decide, by decide⟩

/-- C3 (amended): for every input consisting of tag-free surrounding text
around a paired submit-hook tag, a paired system-reminder tag, or a
self-closing submit-hook tag (the self-closing system-reminder case is
excluded: the code has no substitution for it), the scrubbed output equals
the surroundings alone — newline-collapsed and trimmed, so at most one
blank-line gap remains where the tag was — and contains neither tag name. -/
theorem c3_scrub_removes_tags (pre body post chunk : Str)
    (hchunk : chunk = srPairTag body ∨ chunk = uhPairTag body ∨ chunk = uhSelfTag)
    (hpre : noTagChars pre) (hbody : noTagChars body) (hpost : noTagChars post)
    (hdash : '-' ∉ pre ∧ '-' ∉ post) :
    cleanMetadataL (pre ++ chunk ++ post) = trimJs (collapseNewlines (pre ++ post)) ∧
    containsSubB "user-prompt-submit-hook".data
      (cleanMetadataL (pre ++ chunk ++ post)) = false ∧
    containsSubB "system-reminder".data
      (cleanMetadataL (pre ++ chunk ++ post)) = false := by
  have hdp : '-' ∉ pre ++ post := fun h => by
    rcases List.mem_append.mp h with h | h
    · exact hdash.1 h
    · exact hdash.2 h
  have heq : cleanMetadataL (pre ++ chunk ++ post)
      = trimJs (collapseNewlines (pre ++ post)) := by
    rw [List.append_assoc]
    rcases hchunk with rfl | rfl | rfl
    · exact cleanMetadataL_sr pre body post hpre hbody hpost
    · exact cleanMetadataL_uh pre body post hpre hbody hpost
    · exact cleanMetadataL_uhSelf pre post hpre hpost
  have hres : '-' ∉ cleanMetadataL (pre ++ chunk ++ post) := by
    rw [heq]
    intro h
    exact hdp (mem_collapseNewlines_subset (mem_trimJs_subset h))
  exact ⟨heq,
    containsSubB_false_of_not_mem _ '-' (by decide) _ hres,
    containsSubB_false_of_not_mem _ '-' (by decide) _ hres⟩

/-- Witness for the amended C3 claim at a concrete input: text around a paired
system-reminder tag holding a secret body. -/
theorem c3_scrub_removes_tags_witness :
    cleanMetadataL ("a\n".data ++ srPairTag "secret text".data ++ "\nb".data)
      = trimJs (collapseNewlines ("a\n".data ++ "\nb".data)) ∧
    containsSubB "user-prompt-submit-hook".data
      (cleanMetadataL ("a\n".data ++ srPairTag "secret text".data ++ "\nb".data)) = false ∧
    containsSubB "system-reminder".data
      (cleanMetadataL ("a\n".data ++ srPairTag "secret text".data ++ "\nb".data)) = false :=
  c3_scrub_removes_tags "a\n".data "secret text".data "\nb".data
    (srPairTag "secret text".data) (Or.inl rfl)
    ⟨by decide, by decide⟩ ⟨by decide, by decide⟩ ⟨by decide, by decide⟩
    ⟨by decide, by decide⟩

/-- C4 counterexample: `"a\n\n\nb"` contains a single run of exactly two blank
lines (three newlines) — fewer than three blank lines, no tags, nothing to
trim — so the claim as stated requires the scrubber to leave it unchanged,
but the code collapses it to one blank line. -/
theorem c4_counterexample :
    cleanMetadataL "a\n\n\nb".data = "a\n\nb".data ∧
    cleanMetadataL "a\n\n\nb".data ≠ "a\n\n\nb".data :=
  ⟨by decide, by decide⟩

/-! ## Claim C6: session metadata comes only from the first record -/

theorem joinNl_eq_head_append (x : Str) (xs : List Str) :
    joinNl (x :: xs) = x ++ (xs.map fun l => '\n' :: l).flatten := by
  induction xs generalizing x with
  | nil => simp [joinNl]
  | cons y ys ih =>
    rw [joinNl_cons_cons, ih y]
    simp

/-- C6: for a non-empty record sequence, the assembled document is the title,
then the Session Information block exactly when the first record's metadata
extraction succeeds — which happens precisely when all four fields are
(truthily) present — then the Conversation section built from the rendered
turns alone; records other than the first contribute nothing to the block. -/
theorem c6_session_metadata (fmtTs : Str → Str) (maxResultLength : Nat)
    (m : Message) (rest : List Message) (fms : List Str)
    (hfms : mapOpt (formatMessage? fmtTs maxResultLength) (m :: rest) = some fms) :
    convertToMarkdown? fmtTs maxResultLength (m :: rest) =
      some ("# Claude Conversation\n\n".data ++
        (match extractSessionMetadata fmtTs m with
         | some md => sessionBlockStr md
         | none => []) ++
        ("## Conversation\n".data ++ conversationTail fms)) ∧
    ((extractSessionMetadata fmtTs m).isSome ↔
      (optTruthy m.sessionId = true ∧ optTruthy m.timestamp = true ∧
        optTruthy m.cwd = true ∧ optTruthy m.version = true)) := by
  constructor
  · unfold convertToMarkdown?
    rw [hfms]
    refine congrArg some ?_
    dsimp only
    cases hmeta : extractSessionMetadata fmtTs m with
    | none =>
      rw [List.cons_append, joinNl_eq_head_append]
      simp [conversationTail, List.append_assoc]
    | some md =>
      rw [List.cons_append, joinNl_eq_head_append]
      simp [sessionInfoLines, conversationTail, sessionBlockStr, List.append_assoc]
  · unfold extractSessionMetadata
    by_cases hc : (optTruthy m.sessionId && optTruthy m.timestamp &&
        optTruthy m.cwd && optTruthy m.version) = true
    · simp only [if_pos hc, Option.isSome_some, true_iff]
      simpa [Bool.and_eq_true, and_assoc] using hc
    · simp only [if_neg hc, Option.isSome_none, Bool.false_eq_true, false_iff]
      intro h
      exact hc (by simp [Bool.and_eq_true, h.1, h.2.1, h.2.2.1, h.2.2.2])

/-- C6 witness: one fully-populated record yields the metadata block and the
rendered turn; evaluated with the identity timestamp formatter. -/
theorem c6_session_metadata_witness :
    mapOpt (formatMessage? id 3000)
        [{ type := "user".data, timestamp := some "T1".data, sessionId := some "s-1".data,
           cwd := some "/p".data, version := some "1.0".data,
           message := some { content := some (.str "Hello".data) } }] =
      some ["### 👤 User T1\n\nHello\n".data] ∧
    (convertToMarkdown? id 3000
        [{ type := "user".data, timestamp := some "T1".data, sessionId := some "s-1".data,
           cwd := some "/p".data, version := some "1.0".data,
           message := some { content := some (.str "Hello".data) } }] =
      some ("# Claude Conversation\n\n".data ++
        (match extractSessionMetadata id
            { type := "user".data, timestamp := some "T1".data, sessionId := some "s-1".data,
              cwd := some "/p".data, version := some "1.0".data,
              message := some { content := some (.str "Hello".data) } } with
         | some md => sessionBlockStr md
         | none => []) ++
        ("## Conversation\n".data ++ conversationTail ["### 👤 User T1\n\nHello\n".data])) ∧
    ((extractSessionMetadata id
        { type := "user".data, timestamp := some "T1".data, sessionId := some "s-1".data,
          cwd := some "/p".data, version := some "1.0".data,
          message := some { content := some (.str "Hello".data) } }).isSome ↔
      (optTruthy (some "s-1".data) = true ∧ optTruthy (some "T1".data) = true ∧
        optTruthy (some "/p".data) = true ∧ optTruthy (some "1.0".data) = true))) :=
  ⟨by decide, c6_session_metadata id 3000 _ [] _ (by decide)⟩

/-! ## Claim C8: blank user turns are omitted -/

theorem mapOpt_cons_eq (f : α → Option β) (a : α) (as : List α) :
    mapOpt f (a :: as) = match f a, mapOpt f as with
      | some b, some bs => some (b :: bs)
      | _, _ => none := by
  show (match f a with
    | none => none
    | some b => match mapOpt f as with
      | none => none
      | some bs => some (b :: bs)) = _
  cases f a <;> cases mapOpt f as <;> rfl

theorem mapOpt_append (f : α → Option β) : ∀ (pre post : List α),
    mapOpt f (pre ++ post) =
      (mapOpt f pre).bind fun xs => (mapOpt f post).map fun ys => xs ++ ys := by
  intro pre post
  induction pre with
  | nil =>
    show mapOpt f post = (some []).bind fun xs => (mapOpt f post).map fun ys => xs ++ ys
    cases mapOpt f post <;> simp
  | cons a as ih =>
    rw [List.cons_append, mapOpt_cons_eq, mapOpt_cons_eq, ih]
    cases f a with
    | none => cases mapOpt f as <;> simp
    | some b =>
      cases mapOpt f as with
      | none => simp
      | some xs => cases mapOpt f post <;> simp

theorem mapOpt_middle (f : α → Option β) (x : α) (b : β) (hfx : f x = some b)
    (pre post : List α) :
    mapOpt f (pre ++ x :: post) =
      (mapOpt f pre).bind fun xs => (mapOpt f post).map fun ys => xs ++ b :: ys := by
  rw [mapOpt_append, mapOpt_cons_eq, hfx]
  cases mapOpt f pre with
  | none => simp
  | some xs =>
    cases mapOpt f post with
    | none => simp
    | some ys => simp

theorem filter_blank_middle (xs ys : List Str) :
    (xs ++ ([] : Str) :: ys).filter (fun fm => !(trimJs fm).isEmpty) =
      (xs ++ ys).filter (fun fm => !(trimJs fm).isEmpty) := by
  rw [List.filter_append, List.filter_append, List.filter_cons]
  rw [if_neg (by decide)]

/-- C8: a user turn whose formatted content is blank after trimming renders to
the empty string, contributes no line to the conversation section, and its
removal leaves the assembled document unchanged (when it is not the first
record, whose fields also feed metadata extraction). -/
theorem c8_blank_user_turn (fmtTs : Str → Str) (maxResultLength : Nat) (msg : Message)
    (htype : msg.type = "user".data) (fc : Str)
    (hfc : formatContent? maxResultLength (userRawContent msg) = some fc)
    (hblank : (trimJs fc).isEmpty = true) :
    formatMessage? fmtTs maxResultLength msg = some [] ∧
    (∀ pre post : List Message,
      messageLines? fmtTs maxResultLength (pre ++ msg :: post) =
        messageLines? fmtTs maxResultLength (pre ++ post)) ∧
    (∀ (q : Message) (pre post : List Message),
      convertToMarkdown? fmtTs maxResultLength ((q :: pre) ++ msg :: post) =
        convertToMarkdown? fmtTs maxResultLength ((q :: pre) ++ post)) := by
  have h1 : formatMessage? fmtTs maxResultLength msg = some [] := by
    unfold formatMessage?
    rw [htype, if_pos rfl, hfc]
    simp [hblank]
  refine ⟨h1, ?_, ?_⟩
  · intro pre post
    unfold messageLines?
    rw [mapOpt_middle _ msg [] h1 pre post, mapOpt_append]
    cases mapOpt (formatMessage? fmtTs maxResultLength) pre with
    | none => simp
    | some xs =>
      cases mapOpt (formatMessage? fmtTs maxResultLength) post with
      | none => simp
      | some ys =>
        simp [List.filter_append, List.filter_cons,
          show (!(trimJs ([] : Str)).isEmpty) = false from by decide]
  · intro q pre post
    unfold convertToMarkdown?
    rw [show (q :: pre) ++ msg :: post = q :: (pre ++ msg :: post) from rfl]
    rw [show (q :: pre) ++ post = q :: (pre ++ post) from rfl]
    rw [mapOpt_cons_eq, mapOpt_cons_eq]
    rw [mapOpt_middle _ msg [] h1 pre post, mapOpt_append]
    cases formatMessage? fmtTs maxResultLength q with
    | none => rfl
    | some b =>
      cases mapOpt (formatMessage? fmtTs maxResultLength) pre with
      | none => rfl
      | some xs =>
        cases mapOpt (formatMessage? fmtTs maxResultLength) post with
        | none => rfl
        | some ys =>
          simp [List.filter_append, List.filter_cons,
            show (!(trimJs ([] : Str)).isEmpty) = false from by decide]

/-- C8 witness: a user record with whitespace-only content formats to the
empty string and is omitted from the document. -/
theorem c8_blank_user_turn_witness :
    ({ type := "user".data, content := some (.str "   ".data) : Message }.type = "user".data ∧
      formatContent? 3000 (userRawContent
        { type := "user".data, content := some (.str "   ".data) }) = some [] ∧
      (trimJs ([] : Str)).isEmpty = true) ∧
    (formatMessage? id 3000 { type := "user".data, content := some (.str "   ".data) } = some [] ∧
      messageLines? id 3000
          ([{ type := "assistant".data, thinking := some "t".data }] ++
            { type := "user".data, content := some (.str "   ".data) } :: []) =
        messageLines? id 3000 ([{ type := "assistant".data, thinking := some "t".data }] ++ []) ∧
      convertToMarkdown? id 3000
          (({ type := "assistant".data, thinking := some "t".data } :: []) ++
            { type := "user".data, content := some (.str "   ".data) } :: []) =
        convertToMarkdown? id 3000
          (({ type := "assistant".data, thinking := some "t".data } :: []) ++ [])) := by
  have h := c8_blank_user_turn id 3000
    { type := "user".data, content := some (.str "   ".data) } rfl [] (by decide) (by decide)
  exact ⟨⟨rfl, by decide, by decide⟩,
    h.1, h.2.1 [{ type := "assistant".data, thinking := some "t".data }] [],
    h.2.2 { type := "assistant".data, thinking := some "t".data } [] []⟩

end CCHistory
